import Mathlib

/-!
# Sandbox SMTP server: store, listing, pagination and normalisation

A shallow embedding of `src/database.js` (the SQLite-backed store) and of the
parts of `src/server.js` that handle an SMTP data transaction (`onData`) and
answer `GET /api/emails` and `DELETE /api/emails/:id`.

Modelling conventions

* The `emails` table is a list of rows in rowid order; the `sqlite_sequence`
  entry that `AUTOINCREMENT` maintains for the table is an optional counter.
* A `Date` is its time value, the number of milliseconds since the epoch. The
  `timestamp` column holds the text that `toISOString()` gives for it, and
  `ORDER BY timestamp` compares that text.
* A JSON text held in a column is represented by the JSON document it denotes.
* A JavaScript number is `NaN`, an infinity, negative zero or an integer; the
  result of `parseInt` is rounded to the nearest double.
* A limit or offset that SQLite cannot take as an integer makes the statement
  fail; other failures of the database file are not part of the model.
-/

namespace SandboxSmtp

/-! ## JavaScript numbers -/

/-- The JavaScript numbers that occur in this program: `NaN`, the two
infinities, negative zero and the integers (`fin 0` is positive zero). -/
inductive JsNumber where
  | nan
  | posInf
  | negInf
  | negZero
  | fin (n : Int)
  deriving DecidableEq

/-- `ToBoolean` of a number: `NaN` and the two zeros are falsy. -/
def JsNumber.truthy : JsNumber → Bool
  | .nan => false
  | .posInf => true
  | .negInf => true
  | .negZero => false
  | .fin n => n != 0

/-- The exponent of the unit in the last place of the double nearest to
`n`, for `2 ^ 53 ≤ n`: the least `e`, counted up from the start value, with
`n < 2 ^ (53 + e)`. The first argument bounds the number of steps. -/
def doubleExponent : Nat → Nat → Nat → Nat
  | 0, _, e => e
  | fuel + 1, n, e => if n < 2 ^ (53 + e) then e else doubleExponent fuel n (e + 1)

/-- The natural number `n` rounded to the nearest double, ties to the even
significand; `none` when the result is beyond the largest double, that is
when it reaches `2 ^ 1024`, written `(2 ^ 256) ^ 4`. Below `2 ^ 53` every
natural number is a double. -/
def roundToDouble (n : Nat) : Option Nat :=
  if n < 2 ^ 53 then some n
  else
    let e := doubleExponent n n 1
    let q := n / 2 ^ e
    let r := n % 2 ^ e
    let up := decide (2 ^ (e - 1) < r) || (decide (r = 2 ^ (e - 1)) && q % 2 == 1)
    let m := (if up then q + 1 else q) * 2 ^ e
    if m < (2 ^ 256) ^ 4 then some m else none

/-- The number value of a non-zero mathematical integer: the nearest double,
or an infinity when that is out of range. Zero gives positive zero. -/
def toDouble (x : Int) : JsNumber :=
  match roundToDouble x.natAbs with
  | some m => if x < 0 then .fin (-(m : Int)) else .fin (m : Int)
  | none => if x < 0 then .negInf else .posInf

/-- The sum `a + b` of two numbers. -/
def JsNumber.add : JsNumber → JsNumber → JsNumber
  | .nan, _ => .nan
  | .posInf, .nan => .nan
  | .posInf, .negInf => .nan
  | .posInf, _ => .posInf
  | .negInf, .nan => .nan
  | .negInf, .posInf => .nan
  | .negInf, _ => .negInf
  | .negZero, b => b
  | .fin _, .nan => .nan
  | .fin _, .posInf => .posInf
  | .fin _, .negInf => .negInf
  | .fin a, .negZero => .fin a
  | .fin a, .fin b => toDouble (a + b)

/-- The comparison `a < b` of two numbers; with `NaN` it is false. -/
def JsNumber.lt : JsNumber → JsNumber → Bool
  | .nan, _ => false
  | .posInf, _ => false
  | .negInf, .nan => false
  | .negInf, .negInf => false
  | .negInf, _ => true
  | .negZero, .nan => false
  | .negZero, .posInf => true
  | .negZero, .negInf => false
  | .negZero, .negZero => false
  | .negZero, .fin b => decide (0 < b)
  | .fin _, .nan => false
  | .fin _, .posInf => true
  | .fin _, .negInf => false
  | .fin a, .negZero => decide (a < 0)
  | .fin a, .fin b => decide (a < b)

/-- The integer SQLite takes for a number bound to `LIMIT ?` or `OFFSET ?`:
the number must convert to a 64-bit integer without loss, strictly between
the smallest and the largest one; otherwise (`none`) the statement fails with
`SQLITE_MISMATCH`. `NaN` is bound as `NULL`, which does not convert. -/
def sqliteInteger : JsNumber → Option Int
  | .nan => none
  | .posInf => none
  | .negInf => none
  | .negZero => some 0
  | .fin n =>
    if -9223372036854775808 < n ∧ n < 9223372036854775808 then some n else none

/-- The integer a number is equal to, if any; `WHERE id = ?` compares the
rowid with it. Both zeros are the integer 0. -/
def JsNumber.integer : JsNumber → Option Int
  | .nan => none
  | .posInf => none
  | .negInf => none
  | .negZero => some 0
  | .fin n => some n

/-! ## JavaScript values and JSON -/

/-- JavaScript values that can reach the `headers` and `attachments` fields.
`obj` lists the own enumerable string-keyed properties of a plain object in
enumeration order (keys distinct); `map` is an ES `Map`, whose entries are not
properties. -/
inductive JsVal where
  | undefined
  | null
  | bool (b : Bool)
  | num (x : JsNumber)
  | str (s : String)
  | arr (items : List JsVal)
  | obj (props : List (String × JsVal))
  | map (entries : List (String × JsVal))

/-- JSON documents: what a JSON text stored in a column denotes. A JSON
number here is an integer. -/
inductive Json where
  | null
  | bool (b : Bool)
  | num (n : Int)
  | str (s : String)
  | arr (items : List Json)
  | obj (props : List (String × Json))

/-- JavaScript truthiness (`ToBoolean`). -/
def JsVal.truthy : JsVal → Bool
  | .undefined => false
  | .null => false
  | .bool b => b
  | .num x => x.truthy
  | .str s => s != ""
  | .arr _ => true
  | .obj _ => true
  | .map _ => true

/-- `JSON.stringify` of a number: `NaN` and the infinities are written as
`null`, negative zero as `0`. -/
def jsonStringifyNumber : JsNumber → Json
  | .nan => .null
  | .posInf => .null
  | .negInf => .null
  | .negZero => .num 0
  | .fin n => .num n

mutual
/-- `JSON.stringify(v)`: `none` is the result `undefined` (no text at all).
Inside an array `undefined` is written as `null`; a property whose value is
`undefined` is left out; a `Map` has no own enumerable properties. -/
def jsonStringify : JsVal → Option Json
  | .undefined => none
  | .null => some .null
  | .bool b => some (.bool b)
  | .num x => some (jsonStringifyNumber x)
  | .str s => some (.str s)
  | .arr items => some (.arr (jsonStringifyItems items))
  | .obj props => some (.obj (jsonStringifyProps props))
  | .map _ => some (.obj [])
/-- Elements of an array under `JSON.stringify`. -/
def jsonStringifyItems : List JsVal → List Json
  | [] => []
  | v :: rest =>
    (match jsonStringify v with
      | some j => j
      | none => Json.null) :: jsonStringifyItems rest
/-- Properties of an object under `JSON.stringify`. -/
def jsonStringifyProps : List (String × JsVal) → List (String × Json)
  | [] => []
  | (k, v) :: rest =>
    match jsonStringify v with
    | some j => (k, j) :: jsonStringifyProps rest
    | none => jsonStringifyProps rest
end

mutual
/-- `JSON.parse(text)` on the document the text denotes. -/
def jsonParse : Json → JsVal
  | .null => .null
  | .bool b => .bool b
  | .num n => .num (.fin n)
  | .str s => .str s
  | .arr items => .arr (jsonParseItems items)
  | .obj props => .obj (jsonParseProps props)
/-- Elements of an array under `JSON.parse`. -/
def jsonParseItems : List Json → List JsVal
  | [] => []
  | j :: rest => jsonParse j :: jsonParseItems rest
/-- Properties of an object under `JSON.parse`. -/
def jsonParseProps : List (String × Json) → List (String × JsVal)
  | [] => []
  | (k, j) :: rest => (k, jsonParse j) :: jsonParseProps rest
end

/-- The numbers that JSON text can hold as they are: the integers. -/
def JsNumber.isJson : JsNumber → Bool
  | .fin _ => true
  | _ => false

mutual
/-- Values built only from `null`, booleans, integers, strings, arrays and
plain objects: no `undefined`, no `Map`, no `NaN`, infinity or negative zero
anywhere inside. -/
def JsVal.isJson : JsVal → Bool
  | .undefined => false
  | .null => true
  | .bool _ => true
  | .num x => x.isJson
  | .str _ => true
  | .arr items => JsVal.allJson items
  | .obj props => JsVal.allJsonProps props
  | .map _ => false
/-- Every element of the list satisfies `isJson`. -/
def JsVal.allJson : List JsVal → Bool
  | [] => true
  | v :: rest => JsVal.isJson v && JsVal.allJson rest
/-- Every property value of the list satisfies `isJson`. -/
def JsVal.allJsonProps : List (String × JsVal) → Bool
  | [] => true
  | (_, v) :: rest => JsVal.isJson v && JsVal.allJsonProps rest
end

/-! ## `parseInt` and the query parameters of `GET /api/emails` -/

/-- White space and line terminators skipped by `parseInt` (ECMAScript
`StrWhiteSpaceChar`). -/
def isStrWhiteSpaceChar (c : Char) : Bool :=
  let n := c.toNat
  n == 0x09 || n == 0x0A || n == 0x0B || n == 0x0C || n == 0x0D || n == 0x20 ||
  n == 0xA0 || n == 0x1680 || (0x2000 ≤ n && n ≤ 0x200A) || n == 0x2028 ||
  n == 0x2029 || n == 0x202F || n == 0x205F || n == 0x3000 || n == 0xFEFF

/-- Value of a character read as a digit in radix `R`, if it is one. -/
def radixDigit (R : Nat) (c : Char) : Option Nat :=
  let n := c.toNat
  let v : Option Nat :=
    if 48 ≤ n ∧ n ≤ 57 then some (n - 48)
    else if 97 ≤ n ∧ n ≤ 122 then some (n - 87)
    else if 65 ≤ n ∧ n ≤ 90 then some (n - 55)
    else none
  v.filter (fun d => d < R)

/-- The longest leading run of radix-`R` digits, as digit values. -/
def leadingDigits (R : Nat) : List Char → List Nat
  | [] => []
  | c :: rest =>
    match radixDigit R c with
    | some d => d :: leadingDigits R rest
    | none => []

/-- The integer denoted by digit values in radix `R`, most significant first. -/
def digitsValue (R : Nat) (ds : List Nat) : Nat :=
  ds.foldl (fun acc d => acc * R + d) 0

/-- The sign read by `parseInt` and the text after it: a leading `-` gives
`-1`, a leading `+` or `-` is removed. -/
def readSign : List Char → Int × List Char
  | '-' :: t => (-1, t)
  | '+' :: t => (1, t)
  | s => (1, s)

/-- The radix used by `parseInt` when none is passed, and the text after the
marker: a leading `0x` or `0X` selects 16 and is removed, otherwise 10. -/
def readRadix : List Char → Nat × List Char
  | '0' :: 'x' :: t => (16, t)
  | '0' :: 'X' :: t => (16, t)
  | s => (10, s)

/-- `parseInt(string)` with no radix argument. Leading white space is
skipped, the sign and the radix marker are read, and the longest run of digits
is converted. No digit at all gives `NaN`; the value zero gives a zero of the
sign read; any other value is rounded to the nearest double. -/
def parseInt (input : List Char) : JsNumber :=
  let signed := readSign (input.dropWhile isStrWhiteSpaceChar)
  let radix := readRadix signed.2
  let Z := leadingDigits radix.1 radix.2
  if Z.isEmpty then .nan
  else
    let mathInt := digitsValue radix.1 Z
    if mathInt = 0 then (if signed.1 = -1 then .negZero else .fin 0)
    else toDouble (signed.1 * (mathInt : Int))

/-- `ToString` of a query parameter, as `parseInt` applies it to its
argument: an absent parameter is `undefined`. -/
def queryToString (q : Option String) : List Char :=
  match q with
  | some s => s.toList
  | none => "undefined".toList

/-- The expression `x || d` for a number `x`: a falsy `x` gives `d`. -/
def numOr (x d : JsNumber) : JsNumber :=
  if x.truthy then x else d

/-- The value of `parseInt(req.query.limit) || 100`. -/
def queryLimit (q : Option String) : JsNumber :=
  numOr (parseInt (queryToString q)) (.fin 100)

/-- The value of `parseInt(req.query.offset) || 0`. -/
def queryOffset (q : Option String) : JsNumber :=
  numOr (parseInt (queryToString q)) (.fin 0)

/-- A decimal digit `0` to `9`. -/
def isDecimalDigit (c : Char) : Bool :=
  48 ≤ c.toNat && c.toNat ≤ 57

/-- A digit string: one or more decimal digits and nothing else. -/
def isDigitString (s : String) : Bool :=
  !s.toList.isEmpty && s.toList.all isDecimalDigit

/-- The integer a digit string denotes in decimal notation. -/
def decimalValue (s : String) : Nat :=
  s.toList.foldl (fun acc c => 10 * acc + (c.toNat - 48)) 0

/-- The text of a numeral after its sign, if it has one. -/
def unsignedPart (s : String) : String :=
  match s.toList with
  | '-' :: d => String.mk d
  | '+' :: d => String.mk d
  | _ => s

/-- A numeric string: an optional sign followed by a digit string. -/
def isIntegerString (s : String) : Bool :=
  isDigitString (unsignedPart s)

/-- The integer a numeric string denotes. -/
def integerValue (s : String) : Int :=
  match s.toList with
  | '-' :: _ => -(decimalValue (unsignedPart s) : Int)
  | _ => (decimalValue (unsignedPart s) : Int)

/-- A non-numeric string in the sense of `parseInt`: after leading white
space and an optional sign the text does not go on with a decimal digit. -/
def hasNoLeadingDigit (s : String) : Bool :=
  match unsignedPart (String.mk (s.toList.dropWhile isStrWhiteSpaceChar)) with
  | t =>
    match t.toList with
    | c :: _ => !isDecimalDigit c
    | [] => true

/-- The parameter does not begin, after leading white space, with a minus
sign (an absent parameter does not). -/
def noLeadingMinus (q : Option String) : Bool :=
  match (queryToString q).dropWhile isStrWhiteSpaceChar with
  | c :: _ => c != '-'
  | [] => true

/-! ## `toISOString` and the order of the `timestamp` column -/

/-- Milliseconds in a day. -/
def msPerDay : Int := 86400000

/-- The 400-year era of a day number (days since the epoch); eras begin on
1 March of the years divisible by 400. -/
def eraOfDay (day : Int) : Int :=
  (day + 719468) / 146097

/-- The position of a day within its era, from 0 to 146096. -/
def dayOfEra (day : Int) : Int :=
  (day + 719468) % 146097

/-- The year within the era, from 0 to 399, of a position within the era;
years run from March to February. -/
def yearOfEra (doe : Int) : Int :=
  (doe - doe / 1460 + doe / 36524 - doe / 146096) / 365

/-- The position of a day within its March-based year, from 0 to 365. -/
def dayOfYear (doe : Int) : Int :=
  doe - (365 * yearOfEra doe + yearOfEra doe / 4 - yearOfEra doe / 100)

/-- The month counted from March (0) to February (11). -/
def marchMonth (doy : Int) : Int :=
  (5 * doy + 2) / 153

/-- The month, 1 to 12, of a time value (UTC, proleptic Gregorian). -/
def isoMonth (t : Int) : Int :=
  let mp := marchMonth (dayOfYear (dayOfEra (t / msPerDay)))
  if mp < 10 then mp + 3 else mp - 9

/-- The day of the month, 1 to 31, of a time value. -/
def isoDate (t : Int) : Int :=
  let doy := dayOfYear (dayOfEra (t / msPerDay))
  doy - (153 * marchMonth doy + 2) / 5 + 1

/-- The year of a time value. -/
def isoYear (t : Int) : Int :=
  yearOfEra (dayOfEra (t / msPerDay)) + 400 * eraOfDay (t / msPerDay)
    + (if isoMonth t ≤ 2 then 1 else 0)

/-- The decimal digit character of a value below ten. -/
def digitChar : Nat → Char
  | 0 => '0'
  | 1 => '1'
  | 2 => '2'
  | 3 => '3'
  | 4 => '4'
  | 5 => '5'
  | 6 => '6'
  | 7 => '7'
  | 8 => '8'
  | _ => '9'

/-- The decimal digits of `n` in a field of the given width, most
significant first, for `n` below ten to the power of the width. -/
def decimalDigits : Nat → Nat → List Char
  | 0, _ => []
  | w + 1, n => digitChar (n / 10 ^ w) :: decimalDigits w (n % 10 ^ w)

/-- The year of the ISO text: four digits for the years 0 to 9999, otherwise
a sign and six digits. -/
def isoYearText (y : Int) : List Char :=
  if 0 ≤ y ∧ y ≤ 9999 then decimalDigits 4 y.toNat
  else (if y < 0 then '-' else '+') :: decimalDigits 6 y.natAbs

/-- The characters of `toISOString()` for the time value `t`:
`YYYY-MM-DDTHH:mm:ss.sssZ`, with the expanded year outside 0 to 9999. -/
def isoText (t : Int) : List Char :=
  isoYearText (isoYear t) ++ '-' :: (decimalDigits 2 (isoMonth t).toNat
    ++ '-' :: (decimalDigits 2 (isoDate t).toNat
    ++ 'T' :: (decimalDigits 2 (t % msPerDay / 3600000).toNat
    ++ ':' :: (decimalDigits 2 (t % msPerDay / 60000 % 60).toNat
    ++ ':' :: (decimalDigits 2 (t % msPerDay / 1000 % 60).toNat
    ++ '.' :: (decimalDigits 3 (t % msPerDay % 1000).toNat ++ ['Z']))))))

/-- `toISOString()` of a valid `Date` with time value `t`. -/
def toISOString (t : Int) : String :=
  String.mk (isoText t)

/-- Text comparison of the `BINARY` collation: the first differing character
decides, and a proper beginning of a text is smaller than the text. -/
def textLt : List Char → List Char → Bool
  | [], [] => false
  | [], _ :: _ => true
  | _ :: _, [] => false
  | a :: as, b :: bs =>
    if a.toNat < b.toNat then true
    else if b.toNat < a.toNat then false
    else textLt as bs

/-! ## The store (`src/database.js`) -/

/-- One row of the `emails` table. `timestamp` holds the ISO text of the
capture time; `headers` and `attachments` hold JSON text or `NULL` (`none`);
`from_address` and `to_address` hold text or `NULL`. -/
structure Row where
  id : Nat
  timestamp : String
  from_address : Option String
  to_address : Option String
  subject : String
  text_content : String
  html_content : String
  headers : Option Json
  attachments : Option Json
  raw_content : String
  created_at : Nat

/-- The database: the `emails` table in rowid order and the `sqlite_sequence`
entry kept for it by `AUTOINCREMENT` (`none`: no entry). -/
structure Store where
  emails : List Row
  sqlite_sequence : Option Nat

/-- A database file that has just been created: no table content. -/
def newDatabase : Store :=
  { emails := [], sqlite_sequence := none }

/-- `initializeDatabase`: `CREATE TABLE IF NOT EXISTS` and the two
`CREATE INDEX IF NOT EXISTS` statements leave stored rows as they are. -/
def initializeDatabase (db : Store) : Store :=
  db

/-- The record handed to `insertEmail`. `timestamp` is the time value of a
valid `Date`; `from` and `to` are a string or `undefined` (`none`). -/
structure EmailData where
  timestamp : Int
  from_ : Option String
  to_ : Option String
  subject : String
  text : String
  html : String
  headers : JsVal
  attachments : JsVal
  raw : String

/-- The object `insertEmail` resolves with: the columns of the inserted row
(`...row`), the aliases `from`, `to`, `text`, `html`, `raw`, and the decoded
`headers` and `attachments`. -/
structure SavedEmail where
  id : Nat
  timestamp : String
  from_address : Option String
  to_address : Option String
  subject : String
  text_content : String
  html_content : String
  raw_content : String
  created_at : Nat
  from_ : Option String
  to_ : Option String
  text : String
  html : String
  raw : String
  headers : JsVal
  attachments : JsVal

/-- A message as `getAllEmails` and `getEmailById` return it. -/
structure Email where
  id : Nat
  timestamp : String
  from_ : Option String
  to_ : Option String
  subject : String
  text : String
  html : String
  headers : JsVal
  attachments : JsVal
  raw : String
  created_at : Nat

/-- Largest rowid a table can hold (a signed 64-bit integer). -/
def maxRowid : Nat := 9223372036854775807

/-- Largest rowid present in the table, `0` for an empty table. -/
def largestRowid (rows : List Row) : Nat :=
  rows.foldl (fun acc r => max acc r.id) 0

/-- The rowid `AUTOINCREMENT` gives to the next row: one more than the larger
of the largest rowid in the table and the recorded sequence value; `none` when
that would pass `maxRowid` (the insert then fails with `SQLITE_FULL`). -/
def nextRowid (db : Store) : Option Nat :=
  let m := max (largestRowid db.emails) (db.sqlite_sequence.getD 0)
  if m < maxRowid then some (m + 1) else none

/-- The row selected by `SELECT ... WHERE id = ?`. -/
def selectById (rows : List Row) (id : Nat) : Option Row :=
  rows.find? (fun r => r.id == id)

/-- The row written by the `INSERT` statement of `insertEmail`: the bound
parameters, the rowid `lastID`, and `created_at` from the database clock
`now`. A parameter that is `undefined` (also as the result of
`JSON.stringify`) is stored as `NULL`. -/
def insertedRow (lastID now : Nat) (emailData : EmailData) : Row :=
  { id := lastID
    timestamp := toISOString emailData.timestamp
    from_address := emailData.from_
    to_address := emailData.to_
    subject := emailData.subject
    text_content := emailData.text
    html_content := emailData.html
    headers := jsonStringify emailData.headers
    attachments := jsonStringify emailData.attachments
    raw_content := emailData.raw
    created_at := now }

/-- The object `result` built in `insertEmail` from the row read back. -/
def savedEmail (row : Row) : SavedEmail :=
  { id := row.id
    timestamp := row.timestamp
    from_address := row.from_address
    to_address := row.to_address
    subject := row.subject
    text_content := row.text_content
    html_content := row.html_content
    raw_content := row.raw_content
    created_at := row.created_at
    from_ := row.from_address
    to_ := row.to_address
    text := row.text_content
    html := row.html_content
    raw := row.raw_content
    headers := jsonParse (row.headers.getD (Json.obj []))
    attachments := jsonParse (row.attachments.getD (Json.arr [])) }

/-- `insertEmail(emailData)`: insert the row, then read it back by `lastID`
and decode the JSON columns. `now` is the database clock. -/
def insertEmail (db : Store) (now : Nat) (emailData : EmailData) :
    Except String (Store × SavedEmail) :=
  match nextRowid db with
  | none => .error "SQLITE_FULL"
  | some lastID =>
    let db1 : Store :=
      { emails := db.emails ++ [insertedRow lastID now emailData]
        sqlite_sequence := some lastID }
    match selectById db1.emails lastID with
    | none => .error "row not found"
    | some row => .ok (db1, savedEmail row)

/-- Insert `a` into a list ordered by the `timestamp` text descending: after
every row of a strictly larger text and before the rows of an equal or
smaller one. -/
def insertByTimestamp (a : Row) : List Row → List Row
  | [] => [a]
  | b :: rest =>
    if textLt a.timestamp.toList b.timestamp.toList then b :: insertByTimestamp a rest
    else a :: b :: rest

/-- `ORDER BY timestamp DESC` over the table: the column is text and is
compared as text. The statement names no second sort key; rows of equal
timestamp keep their table (rowid) order, which is how both a scan of
`idx_emails_timestamp` (keyed by timestamp descending, then rowid) and a sort
of the table scan deliver them. -/
def orderByTimestampDesc : List Row → List Row
  | [] => []
  | a :: rest => insertByTimestamp a (orderByTimestampDesc rest)

/-- `LIMIT ? OFFSET ?` in SQLite for integer values: a negative offset counts
as zero and a negative limit means no upper bound. -/
def limitOffset (limit offset : Int) (rows : List Row) : List Row :=
  let rest := rows.drop offset.toNat
  if limit < 0 then rest else rest.take limit.toNat

/-- The object built from a selected row: column aliases and decoded JSON. -/
def rowToEmail (row : Row) : Email :=
  { id := row.id
    timestamp := row.timestamp
    from_ := row.from_address
    to_ := row.to_address
    subject := row.subject
    text := row.text_content
    html := row.html_content
    headers := jsonParse (row.headers.getD (Json.obj []))
    attachments := jsonParse (row.attachments.getD (Json.arr []))
    raw := row.raw_content
    created_at := row.created_at }

/-- `getAllEmails(limit = 100, offset = 0)`; an argument `none` is
`undefined`, which selects the default. The promise is rejected (`error`)
when SQLite cannot take the limit or the offset as an integer. -/
def getAllEmails (db : Store) (limit offset : Option JsNumber) :
    Except String (List Email) :=
  let limit := limit.getD (JsNumber.fin 100)
  let offset := offset.getD (JsNumber.fin 0)
  match sqliteInteger limit, sqliteInteger offset with
  | some l, some o =>
    .ok ((limitOffset l o (orderByTimestampDesc db.emails)).map rowToEmail)
  | _, _ => .error "SQLITE_MISMATCH: datatype mismatch"

/-- `getEmailById(id)`; the argument `none` is a number that is no integer
(`NaN`, which SQLite binds as `NULL`, or an infinity) and which therefore
matches no row. The result `none` is `null`. -/
def getEmailById (db : Store) (id : Option Int) : Option Email :=
  match id with
  | none => none
  | some i => (db.emails.find? (fun r => (r.id : Int) == i)).map rowToEmail

/-- `deleteEmailById(id)`: the new table and `this.changes > 0`; the argument
`none` is a number that is no integer (`NaN` or an infinity), which matches
no row. -/
def deleteEmailById (db : Store) (id : Option Int) : Store × Bool :=
  match id with
  | none => (db, false)
  | some i =>
    let kept := db.emails.filter (fun r => (r.id : Int) != i)
    let changes := db.emails.length - kept.length
    ({ db with emails := kept }, decide (changes > 0))

/-- `clearAllEmails()`: `DELETE FROM emails`, then the row of
`sqlite_sequence` for the table is deleted too. -/
def clearAllEmails (_db : Store) : Store :=
  { emails := [], sqlite_sequence := none }

/-- `getEmailCount()`: `SELECT COUNT(*)`. -/
def getEmailCount (db : Store) : Nat :=
  db.emails.length

/-! ## `GET /api/emails` and the record built in `onData` (`src/server.js`) -/

/-- The `pagination` object of the response. -/
structure Pagination where
  limit : JsNumber
  offset : JsNumber
  total : Nat
  hasMore : Bool

/-- The JSON body answered by `GET /api/emails`. -/
structure EmailsResponse where
  emails : List Email
  pagination : Pagination

/-- The handler of `GET /api/emails` for the query parameters `limit` and
`offset` (`none`: parameter absent). The result `ok` is the body sent with
status 200; when `getAllEmails` rejects, the `catch` answers status 500 with
the error text (`error`) and no emails and no pagination object. -/
def getApiEmails (db : Store) (qLimit qOffset : Option String) :
    Except String EmailsResponse :=
  let limit := queryLimit qLimit
  let offset := queryOffset qOffset
  match getAllEmails db (some limit) (some offset) with
  | .error _ => .error "Failed to fetch emails"
  | .ok emails =>
    let totalCount := getEmailCount db
    .ok
      { emails := emails
        pagination :=
          { limit := limit
            offset := offset
            total := totalCount
            hasMore := (offset.add limit).lt (JsNumber.fin (totalCount : Int)) } }

/-- The full newest-first listing of the store: every stored message, in the
order of `ORDER BY timestamp DESC`, with no limit and no offset. -/
def listing (db : Store) : List Email :=
  (orderByTimestampDesc db.emails).map rowToEmail

/-- An address field of the parser: one address object, of which only
`text` is read, or an array of address objects (a header that occurs several
times), given by their texts. -/
inductive AddressField where
  | object (text : String)
  | array (texts : List String)

/-- The property `text` of an address field; an array has none
(`undefined`). -/
def AddressField.text : AddressField → Option String
  | .object text => some text
  | .array _ => none

/-- What the external parser hands to `onData`. A scalar field that is
missing (`undefined`, or `false` for a body) is `none`. -/
structure ParsedMail where
  from_ : Option AddressField
  to_ : Option AddressField
  subject : Option String
  text : Option String
  html : Option String
  headers : JsVal
  attachments : JsVal
  raw : Option String

/-- The expression `x || d` for a string field: a missing value and the empty
string are falsy. -/
def strOr (x : Option String) (d : String) : String :=
  match x with
  | some s => if s = "" then d else s
  | none => d

/-- The object `emailData` built in `onData`; `now` is `new Date()`, the
system clock. An address field that is present is truthy, and its `text` is
taken whatever it is. -/
def emailData (now : Nat) (parsed : ParsedMail) : EmailData :=
  { timestamp := (now : Int)
    from_ :=
      match parsed.from_ with
      | some a => a.text
      | none => some "Unknown"
    to_ :=
      match parsed.to_ with
      | some a => a.text
      | none => some "Unknown"
    subject := strOr parsed.subject "No Subject"
    text := strOr parsed.text ""
    html := strOr parsed.html ""
    headers := parsed.headers
    attachments := if parsed.attachments.truthy then parsed.attachments else JsVal.arr []
    raw := strOr parsed.raw "" }


/-! ## Histories of store operations -/

/-- One operation on the store. -/
inductive StoreOp where
  | insert (now : Nat) (emailData : EmailData)
  | delete (id : Option Int)
  | clear

/-- A store together with the ids assigned by the successful inserts since
the last clear (or since the database was created), newest first. -/
structure History where
  db : Store
  issued : List Nat

/-- Perform one operation and record the id it assigns, if any. -/
def History.step (h : History) : StoreOp → History
  | .insert now emailData =>
    match insertEmail h.db now emailData with
    | .ok (db1, saved) => { db := db1, issued := saved.id :: h.issued }
    | .error _ => h
  | .delete id => { db := (deleteEmailById h.db id).1, issued := h.issued }
  | .clear => { db := clearAllEmails h.db, issued := [] }

/-- Perform the operations in order on a database that has just been created
and initialised. -/
def run (ops : List StoreOp) : History :=
  ops.foldl History.step { db := initializeDatabase newDatabase, issued := [] }

/-- The facts that every operation of the store preserves: stored ids
increase along the table, and no stored or issued id exceeds the recorded
sequence value. -/
structure History.Inv (h : History) : Prop where
  stored_sorted : h.db.emails.Pairwise (fun a b => a.id < b.id)
  stored_le : ∀ r ∈ h.db.emails, r.id ≤ h.db.sqlite_sequence.getD 0
  stored_issued : ∀ r ∈ h.db.emails, r.id ∈ h.issued
  issued_le : ∀ j ∈ h.issued, j ≤ h.db.sqlite_sequence.getD 0
  issued_sorted : h.issued.Pairwise (fun a b => b < a)

/-! ## Example stores -/

/-- Insert the records one after the other; a failed insert leaves the
database as it was. -/
def insertAll (db : Store) (records : List EmailData) : Store :=
  records.foldl
    (fun d e =>
      match insertEmail d 0 e with
      | .ok (d1, _) => d1
      | .error _ => d)
    db

/-- A record with the given capture time and subject and nothing else of
interest. -/
def sampleEmail (timestamp : Int) (subject : String) : EmailData :=
  { timestamp := timestamp
    from_ := some "Unknown"
    to_ := some "Unknown"
    subject := subject
    text := ""
    html := ""
    headers := JsVal.undefined
    attachments := JsVal.arr []
    raw := "" }

/-- Two messages captured in the same millisecond. -/
def tieStore : Store :=
  insertAll newDatabase [sampleEmail 1000 "first", sampleEmail 1000 "second"]

/-- Subjects A, B, C captured at increasing times. -/
def abcStore : Store :=
  insertAll newDatabase [sampleEmail 10 "A", sampleEmail 20 "B", sampleEmail 30 "C"]

/-- A message captured on 14 November 2023 and one captured later, at the
first millisecond of the year 10000. -/
def yearTenThousandStore : Store :=
  insertAll newDatabase
    [sampleEmail 1700000000000 "in 2023", sampleEmail 253402300800000 "in 10000"]

/-- Two inserts followed by the deletion of the id assigned last. -/
def insertInsertDelete : List StoreOp :=
  [StoreOp.insert 0 (sampleEmail 10 "A"), StoreOp.insert 0 (sampleEmail 20 "B"),
    StoreOp.delete (some 2)]

/-- A parsed mail without a `Subject` header; the parser delivers the
headers as a `Map`. -/
def noSubjectMail : ParsedMail :=
  { from_ := some (AddressField.object "sender@test.com")
    to_ := some (AddressField.object "recipient@test.com")
    subject := none
    text := some "Hello"
    html := none
    headers := JsVal.map [("from", JsVal.str "sender@test.com")]
    attachments := JsVal.arr []
    raw := none }

/-- A parsed mail whose subject is present and empty and whose `To` header
occurs twice, so that `to` is an array of address objects. -/
def emptySubjectMail : ParsedMail :=
  { from_ := some (AddressField.object "sender@test.com")
    to_ := some (AddressField.array ["first@test.com", "second@test.com"])
    subject := some ""
    text := some "Hello"
    html := none
    headers := JsVal.map [("from", JsVal.str "sender@test.com"), ("subject", JsVal.str "")]
    attachments := JsVal.arr []
    raw := none }

/-- A parsed mail as the parser delivers it for the test message of
`quick-test.js`: the headers are a `Map`. -/
def quickTestMail : ParsedMail :=
  { from_ := some (AddressField.object "sender@test.com")
    to_ := some (AddressField.object "recipient@test.com")
    subject := some "Quick SMTP Test"
    text := some "Hello! This is a quick test of your SMTP server."
    html := some "<h1>Hello!</h1>"
    headers :=
      JsVal.map [("from", JsVal.str "sender@test.com"),
        ("to", JsVal.str "recipient@test.com"), ("subject", JsVal.str "Quick SMTP Test")]
    attachments := JsVal.arr []
    raw := none }

/-- A record whose headers are a plain object and whose attachments are an
array of plain objects. -/
def jsonHeadersEmail : EmailData :=
  { timestamp := 10
    from_ := some "sender@test.com"
    to_ := some "recipient@test.com"
    subject := "Hello"
    text := ""
    html := ""
    headers :=
      JsVal.obj [("subject", JsVal.str "Hello"), ("x-priority", JsVal.num (JsNumber.fin 3))]
    attachments :=
      JsVal.arr
        [JsVal.obj [("filename", JsVal.str "a.txt"), ("size", JsVal.num (JsNumber.fin 4))]]
    raw := "" }

/-! ## Events, `DELETE /api/emails/:id` and `onData` (`src/server.js`) -/

/-- An event sent to the connected observers with `io.emit`. `emailDeleted`
carries the number `emailId`. -/
inductive Event where
  | newEmail (email : SavedEmail)
  | emailDeleted (id : JsNumber)
  | emailsCleared

/-- An HTTP answer: the status code and the JSON body. -/
structure HttpResponse where
  status : Nat
  body : Json

/-- The outcome of a route handler: the database afterwards, the answer
sent, and the events emitted, in order. -/
structure RouteResult where
  db : Store
  response : HttpResponse
  events : List Event

/-- The handler of `DELETE /api/emails/:id` for the route parameter `id`:
`parseInt` of the parameter is handed to `deleteEmailById`; when nothing was
deleted the answer is 404 and nothing is emitted, otherwise `emailDeleted` is
emitted with the parsed id and the answer is `success: true`. -/
def deleteApiEmail (db : Store) (id : String) : RouteResult :=
  let emailId := parseInt id.toList
  let deleted := deleteEmailById db emailId.integer
  if !deleted.2 then
    { db := deleted.1
      response := { status := 404, body := Json.obj [("error", Json.str "Email not found")] }
      events := [] }
  else
    { db := deleted.1
      response := { status := 200, body := Json.obj [("success", Json.bool true)] }
      events := [Event.emailDeleted emailId] }

/-- The outcome of one SMTP data transaction: the database afterwards, the
events emitted, and the argument of the one call of `callback` (`none`: called
without an error). -/
structure OnDataResult where
  db : Store
  events : List Event
  callback : Option String

/-- `onData` once the parser has called back with `parseResult` (an error, or
the parsed mail). `now` is `new Date()` and `clock` the database clock. A
parser error is passed to `callback` at once; otherwise the record is built and
inserted, and either `newEmail` is emitted with the saved message and
`callback` is called without argument, or the error of the insert is passed to
`callback`. A failed insert writes nothing. -/
def onData (db : Store) (now clock : Nat) (parseResult : Except String ParsedMail) :
    OnDataResult :=
  match parseResult with
  | .error err => { db := db, events := [], callback := some err }
  | .ok parsed =>
    match insertEmail db clock (emailData now parsed) with
    | .ok (db1, saved) =>
      { db := db1, events := [Event.newEmail saved], callback := none }
    | .error dbError => { db := db, events := [], callback := some dbError }

/-- A database whose recorded sequence value is the largest rowid: the next
insert fails. -/
def fullStore : Store :=
  { emails := [], sqlite_sequence := some maxRowid }


/-! ## Text order -/

theorem textLt_irrefl (a : List Char) : textLt a a = false := by
  induction a with
  | nil => rfl
  | cons c t ih => simp [textLt, ih]

theorem textLt_asymm (a b : List Char) (h : textLt a b = true) : textLt b a = false := by
  induction a generalizing b with
  | nil =>
    cases b with
    | nil => rfl
    | cons d u => rfl
  | cons c t ih =>
    cases b with
    | nil => simp [textLt] at h
    | cons d u =>
      simp only [textLt] at h ⊢
      by_cases h1 : c.toNat < d.toNat
      · have h2 : ¬ d.toNat < c.toNat := by omega
        simp [h1, h2]
      · by_cases h2 : d.toNat < c.toNat
        · simp [h1, h2] at h
        · simp only [h1, h2, if_false] at h ⊢
          exact ih u h

theorem textLt_not_trans (a b c : List Char) (hab : textLt a b = false)
    (hbc : textLt b c = false) : textLt a c = false := by
  induction a generalizing b c with
  | nil =>
    cases b with
    | nil => exact hbc
    | cons d u => simp [textLt] at hab
  | cons x t ih =>
    cases c with
    | nil => rfl
    | cons z w =>
      cases b with
      | nil => simp [textLt] at hbc
      | cons y u =>
        simp only [textLt] at hab hbc ⊢
        by_cases h1 : x.toNat < y.toNat
        · simp [h1] at hab
        · by_cases h2 : y.toNat < z.toNat
          · simp [h2] at hbc
          · by_cases h3 : y.toNat < x.toNat
            · have h4 : ¬ x.toNat < z.toNat := by omega
              have h5 : z.toNat < x.toNat := by omega
              simp [h4, h5]
            · by_cases h6 : z.toNat < y.toNat
              · have h4 : ¬ x.toNat < z.toNat := by omega
                have h5 : z.toNat < x.toNat := by omega
                simp [h4, h5]
              · have h4 : ¬ x.toNat < z.toNat := by omega
                have h5 : ¬ z.toNat < x.toNat := by omega
                simp only [h1, h3, h2, h6, if_false] at hab hbc
                simp only [h4, h5, if_false]
                exact ih u w hab hbc

theorem textLt_cons_same (c : Char) (x y : List Char) :
    textLt (c :: x) (c :: y) = textLt x y := by
  simp [textLt]

theorem digitChar_toNat (d : Nat) (h : d < 10) : (digitChar d).toNat = 48 + d := by
  revert d
  decide

theorem textLt_digits (w : Nat) (a b : Nat) (x y : List Char)
    (ha : a < 10 ^ w) (hb : b < 10 ^ w)
    (h : a < b ∨ (a = b ∧ textLt x y = true)) :
    textLt (decimalDigits w a ++ x) (decimalDigits w b ++ y) = true := by
  induction w generalizing a b with
  | zero =>
    simp only [pow_zero, Nat.lt_one_iff] at ha hb
    subst ha
    subst hb
    rcases h with h | h
    · exact absurd h (Nat.lt_irrefl _)
    · simpa [decimalDigits] using h.2
  | succ w ih =>
    have hp : 0 < 10 ^ w := Nat.pow_pos (by decide)
    have hda : a / 10 ^ w < 10 := by
      rw [Nat.div_lt_iff_lt_mul hp]
      rw [pow_succ] at ha
      omega
    have hdb : b / 10 ^ w < 10 := by
      rw [Nat.div_lt_iff_lt_mul hp]
      rw [pow_succ] at hb
      omega
    have hra := Nat.mod_lt a hp
    have hrb := Nat.mod_lt b hp
    have hab : a ≤ b := by
      rcases h with h | h
      · exact Nat.le_of_lt h
      · exact Nat.le_of_eq h.1
    have hq : a / 10 ^ w ≤ b / 10 ^ w := Nat.div_le_div_right hab
    have ea := Nat.div_add_mod a (10 ^ w)
    have eb := Nat.div_add_mod b (10 ^ w)
    simp only [decimalDigits, List.cons_append, textLt, digitChar_toNat _ hda,
      digitChar_toNat _ hdb]
    by_cases hlt : a / 10 ^ w < b / 10 ^ w
    · have : 48 + a / 10 ^ w < 48 + b / 10 ^ w := by omega
      simp [this]
    · have heq : a / 10 ^ w = b / 10 ^ w := by omega
      have h1 : ¬ (48 + a / 10 ^ w < 48 + b / 10 ^ w) := by omega
      have h2 : ¬ (48 + b / 10 ^ w < 48 + a / 10 ^ w) := by omega
      simp only [h1, h2, if_false]
      apply ih _ _ hra hrb
      rw [heq] at ea
      rcases h with h | h
      · left
        omega
      · right
        exact ⟨by rw [h.1], h.2⟩

theorem textLt_field (w a b : Nat) (c : Char) (x y : List Char)
    (ha : a < 10 ^ w) (hb : b < 10 ^ w)
    (h : a < b ∨ (a = b ∧ textLt x y = true)) :
    textLt (decimalDigits w a ++ c :: x) (decimalDigits w b ++ c :: y) = true := by
  apply textLt_digits w a b _ _ ha hb
  rcases h with h | h
  · exact Or.inl h
  · exact Or.inr ⟨h.1, by rw [textLt_cons_same]; exact h.2⟩

/-! ## Calendar fields of a time value -/

theorem yearOfEra_dayOfYear_bounds (doe : Int) (h0 : 0 ≤ doe) (h1 : doe ≤ 146096) :
    0 ≤ yearOfEra doe ∧ yearOfEra doe ≤ 399 ∧ 0 ≤ dayOfYear doe ∧ dayOfYear doe ≤ 365 := by
  have hf : doe / 36524 = 0 ∨ doe / 36524 = 1 ∨ doe / 36524 = 2 ∨ doe / 36524 = 3
      ∨ doe / 36524 = 4 := by omega
  have hy : 0 ≤ yearOfEra doe ∧ yearOfEra doe ≤ 399 := by
    unfold yearOfEra
    omega
  have hd : yearOfEra doe / 100 = 0 ∨ yearOfEra doe / 100 = 1 ∨ yearOfEra doe / 100 = 2
      ∨ yearOfEra doe / 100 = 3 := by omega
  unfold dayOfYear
  unfold yearOfEra at *
  rcases hf with hf | hf | hf | hf | hf <;> rcases hd with hd | hd | hd | hd <;> omega

theorem yearOfEra_mono (a b : Int) (h0 : 0 ≤ a) (hab : a < b) (h1 : b ≤ 146096) :
    yearOfEra a < yearOfEra b ∨ (yearOfEra a = yearOfEra b ∧ dayOfYear a < dayOfYear b) := by
  have hle : yearOfEra a ≤ yearOfEra b := by
    unfold yearOfEra
    omega
  by_cases heq : yearOfEra a = yearOfEra b
  · refine Or.inr ⟨heq, ?_⟩
    unfold dayOfYear
    rw [heq]
    omega
  · exact Or.inl (by omega)

theorem dayOfEra_bounds (day : Int) : 0 ≤ dayOfEra day ∧ dayOfEra day ≤ 146096 := by
  unfold dayOfEra
  omega

theorem eraOfDay_mono (d1 d2 : Int) (h : d1 < d2) :
    eraOfDay d1 < eraOfDay d2 ∨ (eraOfDay d1 = eraOfDay d2 ∧ dayOfEra d1 < dayOfEra d2) := by
  unfold eraOfDay dayOfEra
  omega

theorem marchMonth_mono (a b : Int) (hab : a < b) :
    marchMonth a < marchMonth b
      ∨ (marchMonth a = marchMonth b
          ∧ a - (153 * marchMonth a + 2) / 5 + 1 < b - (153 * marchMonth b + 2) / 5 + 1) := by
  unfold marchMonth
  omega

theorem marchMonth_bounds (a : Int) (h0 : 0 ≤ a) (h1 : a ≤ 365) :
    0 ≤ marchMonth a ∧ marchMonth a ≤ 11
      ∧ 1 ≤ a - (153 * marchMonth a + 2) / 5 + 1 ∧ a - (153 * marchMonth a + 2) / 5 + 1 ≤ 31 := by
  unfold marchMonth
  omega

/-- The month and the day of the month are in range for every time value. -/
theorem isoMonth_isoDate_bounds (t : Int) :
    1 ≤ isoMonth t ∧ isoMonth t ≤ 12 ∧ 1 ≤ isoDate t ∧ isoDate t ≤ 31 := by
  have hb := dayOfEra_bounds (t / msPerDay)
  have hy := yearOfEra_dayOfYear_bounds _ hb.1 hb.2
  have hm := marchMonth_bounds _ hy.2.2.1 hy.2.2.2
  unfold isoMonth isoDate
  simp only []
  refine ⟨?_, ?_, hm.2.2.1, hm.2.2.2⟩
  · split <;> omega
  · split <;> omega

/-- Year, month and day grow, in this order of significance, with the day
number. -/
theorem civil_lex (t1 t2 : Int) (h : t1 / msPerDay < t2 / msPerDay) :
    isoYear t1 < isoYear t2
      ∨ (isoYear t1 = isoYear t2
          ∧ (isoMonth t1 < isoMonth t2
              ∨ (isoMonth t1 = isoMonth t2 ∧ isoDate t1 < isoDate t2))) := by
  have hb1 := dayOfEra_bounds (t1 / msPerDay)
  have hb2 := dayOfEra_bounds (t2 / msPerDay)
  have hy1 := yearOfEra_dayOfYear_bounds _ hb1.1 hb1.2
  have hy2 := yearOfEra_dayOfYear_bounds _ hb2.1 hb2.2
  have hm1 := marchMonth_bounds _ hy1.2.2.1 hy1.2.2.2
  have hm2 := marchMonth_bounds _ hy2.2.2.1 hy2.2.2.2
  have he := eraOfDay_mono _ _ h
  have key : eraOfDay (t1 / msPerDay) < eraOfDay (t2 / msPerDay)
      ∨ (eraOfDay (t1 / msPerDay) = eraOfDay (t2 / msPerDay)
        ∧ (yearOfEra (dayOfEra (t1 / msPerDay)) < yearOfEra (dayOfEra (t2 / msPerDay))
          ∨ (yearOfEra (dayOfEra (t1 / msPerDay)) = yearOfEra (dayOfEra (t2 / msPerDay))
            ∧ (marchMonth (dayOfYear (dayOfEra (t1 / msPerDay)))
                < marchMonth (dayOfYear (dayOfEra (t2 / msPerDay)))
              ∨ (marchMonth (dayOfYear (dayOfEra (t1 / msPerDay)))
                  = marchMonth (dayOfYear (dayOfEra (t2 / msPerDay)))
                ∧ isoDate t1 < isoDate t2))))) := by
    rcases he with he | ⟨he, hd⟩
    · exact Or.inl he
    · refine Or.inr ⟨he, ?_⟩
      rcases yearOfEra_mono _ _ hb1.1 hd hb2.2 with hyy | ⟨hyy, hdd⟩
      · exact Or.inl hyy
      · refine Or.inr ⟨hyy, ?_⟩
        exact marchMonth_mono _ _ hdd
  unfold isoYear isoMonth
  simp only []
  generalize eraOfDay (t1 / msPerDay) = e1 at *
  generalize eraOfDay (t2 / msPerDay) = e2 at *
  generalize yearOfEra (dayOfEra (t1 / msPerDay)) = y1 at *
  generalize yearOfEra (dayOfEra (t2 / msPerDay)) = y2 at *
  generalize marchMonth (dayOfYear (dayOfEra (t1 / msPerDay))) = m1 at *
  generalize marchMonth (dayOfYear (dayOfEra (t2 / msPerDay))) = m2 at *
  generalize isoDate t1 = dd1 at *
  generalize isoDate t2 = dd2 at *
  split_ifs <;> omega

/-- The years of the time values from the first millisecond of the year 0 to
the last millisecond of the year 9999. -/
theorem isoYear_range (t : Int) (h0 : -62167219200000 ≤ t) (h1 : t ≤ 253402300799999) :
    0 ≤ isoYear t ∧ isoYear t ≤ 9999 := by
  have hb := dayOfEra_bounds (t / msPerDay)
  have hy := yearOfEra_dayOfYear_bounds _ hb.1 hb.2
  have hdoy : dayOfYear (dayOfEra (t / msPerDay))
      = dayOfEra (t / msPerDay)
        - (365 * yearOfEra (dayOfEra (t / msPerDay)) + yearOfEra (dayOfEra (t / msPerDay)) / 4
          - yearOfEra (dayOfEra (t / msPerDay)) / 100) := rfl
  have hera : eraOfDay (t / msPerDay) = (t / msPerDay + 719468) / 146097 := rfl
  have hdoe : dayOfEra (t / msPerDay) = (t / msPerDay + 719468) % 146097 := rfl
  have hday : -719528 ≤ t / msPerDay ∧ t / msPerDay ≤ 2932896 := by
    unfold msPerDay
    omega
  unfold isoYear isoMonth marchMonth
  simp only []
  generalize yearOfEra (dayOfEra (t / msPerDay)) = y at *
  generalize dayOfYear (dayOfEra (t / msPerDay)) = doy at *
  generalize dayOfEra (t / msPerDay) = doe at *
  generalize eraOfDay (t / msPerDay) = e at *
  generalize t / msPerDay = day at *
  have he : e = -1 ∨ (0 ≤ e ∧ e ≤ 23) ∨ e = 24 := by omega
  have hc : y / 100 = 0 ∨ y / 100 = 1 ∨ y / 100 = 2 ∨ y / 100 = 3 := by omega
  rcases he with he | he | he
  · have hy399 : y = 399 := by
      rcases hc with hc | hc | hc | hc <;> omega
    subst hy399
    split_ifs <;> omega
  · split_ifs <;> omega
  · by_cases hy399 : y = 399
    · subst hy399
      split_ifs <;> omega
    · split_ifs <;> omega

/-- The ISO texts of two time values of the years 0 to 9999 compare, as
text, in the order of the time values. -/
theorem isoText_lt (t1 t2 : Int) (hy1 : 0 ≤ isoYear t1 ∧ isoYear t1 ≤ 9999)
    (hy2 : 0 ≤ isoYear t2 ∧ isoYear t2 ≤ 9999) (h : t1 < t2) :
    textLt (isoText t1) (isoText t2) = true := by
  have hm1 := isoMonth_isoDate_bounds t1
  have hm2 := isoMonth_isoDate_bounds t2
  have hx1 : 0 ≤ t1 % msPerDay ∧ t1 % msPerDay < 86400000 := by
    unfold msPerDay
    omega
  have hx2 : 0 ≤ t2 % msPerDay ∧ t2 % msPerDay < 86400000 := by
    unfold msPerDay
    omega
  have hdays : t1 / msPerDay < t2 / msPerDay
      ∨ (t1 / msPerDay = t2 / msPerDay ∧ t1 % msPerDay < t2 % msPerDay) := by
    unfold msPerDay
    omega
  unfold isoText isoYearText
  rw [if_pos hy1, if_pos hy2]
  apply textLt_field 4 _ _ '-' _ _ (by norm_num; omega) (by norm_num; omega)
  rcases hdays with hday | ⟨hday, htod⟩
  · rcases civil_lex t1 t2 hday with hY | ⟨hY, hM | ⟨hM, hD⟩⟩
    · left
      omega
    · right
      refine ⟨by omega, ?_⟩
      apply textLt_field 2 _ _ '-' _ _ (by norm_num; omega) (by norm_num; omega)
      left
      omega
    · right
      refine ⟨by omega, ?_⟩
      apply textLt_field 2 _ _ '-' _ _ (by norm_num; omega) (by norm_num; omega)
      right
      refine ⟨by omega, ?_⟩
      apply textLt_field 2 _ _ 'T' _ _ (by norm_num; omega) (by norm_num; omega)
      left
      omega
  · have hY : isoYear t1 = isoYear t2 := by simp only [isoYear, isoMonth, hday]
    have hM : isoMonth t1 = isoMonth t2 := by simp only [isoMonth, hday]
    have hD : isoDate t1 = isoDate t2 := by simp only [isoDate, hday]
    right
    refine ⟨by omega, ?_⟩
    apply textLt_field 2 _ _ '-' _ _ (by norm_num; omega) (by norm_num; omega)
    right
    refine ⟨by omega, ?_⟩
    apply textLt_field 2 _ _ 'T' _ _ (by norm_num; omega) (by norm_num; omega)
    right
    refine ⟨by omega, ?_⟩
    generalize t1 % msPerDay = x1 at *
    generalize t2 % msPerDay = x2 at *
    apply textLt_field 2 _ _ ':' _ _ (by norm_num; omega) (by norm_num; omega)
    by_cases hh : x1 / 3600000 < x2 / 3600000
    · left
      omega
    · right
      refine ⟨by omega, ?_⟩
      apply textLt_field 2 _ _ ':' _ _ (by norm_num; omega) (by norm_num; omega)
      by_cases hmi : x1 / 60000 % 60 < x2 / 60000 % 60
      · left
        omega
      · right
        refine ⟨by omega, ?_⟩
        apply textLt_field 2 _ _ '.' _ _ (by norm_num; omega) (by norm_num; omega)
        by_cases hs : x1 / 1000 % 60 < x2 / 1000 % 60
        · left
          omega
        · right
          refine ⟨by omega, ?_⟩
          apply textLt_digits 3 _ _ _ _ (by norm_num; omega) (by norm_num; omega)
          left
          omega
/-! ## Insert, delete and clear -/

theorem le_foldl_max (rows : List Row) (acc : Nat) :
    acc ≤ rows.foldl (fun a r => max a r.id) acc
      ∧ ∀ r ∈ rows, r.id ≤ rows.foldl (fun a r => max a r.id) acc := by
  induction rows generalizing acc with
  | nil => simp
  | cons b rest ih =>
    simp only [List.foldl_cons, List.mem_cons, forall_eq_or_imp]
    have h1 := (ih (max acc b.id)).1
    refine ⟨by omega, by omega, (ih (max acc b.id)).2⟩

theorem le_largestRowid (rows : List Row) (r : Row) (h : r ∈ rows) :
    r.id ≤ largestRowid rows :=
  (le_foldl_max rows 0).2 r h

theorem nextRowid_gt (db : Store) (lastID : Nat) (h : nextRowid db = some lastID) :
    (∀ r ∈ db.emails, r.id < lastID) ∧ db.sqlite_sequence.getD 0 < lastID := by
  unfold nextRowid at h
  simp only [] at h
  split at h
  · simp only [Option.some.injEq] at h
    refine ⟨fun r hr => ?_, by omega⟩
    have := le_largestRowid db.emails r hr
    omega
  · exact absurd h (by simp)

theorem selectById_append_new (rows : List Row) (x : Row) (h : ∀ r ∈ rows, r.id < x.id) :
    selectById (rows ++ [x]) x.id = some x := by
  unfold selectById
  induction rows with
  | nil => simp
  | cons b rest ih =>
    have hb : b.id < x.id := h b (List.mem_cons_self _ _)
    have hne : (b.id == x.id) = false := by
      simp only [beq_eq_false_iff_ne, ne_eq]
      omega
    simp only [List.cons_append, List.find?_cons, hne]
    exact ih (fun r hr => h r (List.mem_cons_of_mem _ hr))

/-- What `insertEmail` does: it fails exactly when the rowids are used up,
and otherwise appends the new row and returns that row decoded. -/
theorem insertEmail_eq (db : Store) (now : Nat) (e : EmailData) :
    insertEmail db now e =
      match nextRowid db with
      | none => .error "SQLITE_FULL"
      | some lastID =>
        .ok ({ emails := db.emails ++ [insertedRow lastID now e]
               sqlite_sequence := some lastID },
             savedEmail (insertedRow lastID now e)) := by
  unfold insertEmail
  cases hn : nextRowid db with
  | none => rfl
  | some lastID =>
    simp only []
    have := selectById_append_new db.emails (insertedRow lastID now e)
      (fun r hr => (nextRowid_gt db lastID hn).1 r hr)
    simp only [insertedRow] at this ⊢
    rw [this]

theorem length_filter_of_nodup (rows : List Row) (i : Int)
    (hn : (rows.map Row.id).Nodup) (hex : ∃ r ∈ rows, (r.id : Int) = i) :
    (rows.filter (fun r => (r.id : Int) != i)).length + 1 = rows.length := by
  induction rows with
  | nil => obtain ⟨r, hr, _⟩ := hex; cases hr
  | cons b rest ih =>
    rw [List.map_cons, List.nodup_cons] at hn
    by_cases hb : (b.id : Int) = i
    · have hall : ∀ r ∈ rest, ((r.id : Int) != i) = true := by
        intro r hr
        simp only [bne_iff_ne, ne_eq]
        intro hri
        apply hn.1
        have : r.id = b.id := by omega
        rw [← this]
        exact List.mem_map_of_mem _ hr
      have hf : rest.filter (fun r => (r.id : Int) != i) = rest :=
        List.filter_eq_self.mpr hall
      simp [List.filter_cons, hb, hf]
    · have hex2 : ∃ r ∈ rest, (r.id : Int) = i := by
        obtain ⟨r, hr, hri⟩ := hex
        rcases List.mem_cons.mp hr with rfl | hr
        · exact absurd hri hb
        · exact ⟨r, hr, hri⟩
      have := ih hn.2 hex2
      simp [List.filter_cons, hb]
      omega

theorem filter_length_lt_iff (rows : List Row) (i : Int) :
    0 < rows.length - (rows.filter (fun r => (r.id : Int) != i)).length
      ↔ ∃ r ∈ rows, (r.id : Int) = i := by
  induction rows with
  | nil => simp
  | cons b rest ih =>
    have hle := List.length_filter_le (fun r : Row => (r.id : Int) != i) rest
    by_cases hb : (b.id : Int) = i
    · simp [List.filter_cons, hb]
      omega
    · simp only [List.filter_cons, bne_iff_ne, ne_eq, hb, not_false_eq_true, ↓reduceIte,
        List.length_cons, List.mem_cons, exists_eq_or_imp, false_or]
      rw [← ih]
      simp only [bne_iff_ne, ne_eq] at hle ⊢
      omega

theorem deleteEmailById_sublist (db : Store) (id : Option Int) :
    (deleteEmailById db id).1.emails.Sublist db.emails := by
  cases id with
  | none => exact List.Sublist.refl _
  | some i => exact List.filter_sublist _

theorem deleteEmailById_sequence (db : Store) (id : Option Int) :
    (deleteEmailById db id).1.sqlite_sequence = db.sqlite_sequence := by
  cases id with
  | none => rfl
  | some i => rfl

/-- C6: `deleteEmailById` returns true exactly when a message with that id
was stored; the rows of that id are removed and every other row is kept, in
order; when it returns false the store is unchanged; a second delete of the
same id returns false; and with distinct stored ids a successful delete
removes exactly one message. -/
theorem deleteEmailById_spec (db : Store) (id : Option Int) :
    ((deleteEmailById db id).2 = true ↔ ∃ r ∈ db.emails, id = some (r.id : Int))
      ∧ (deleteEmailById db id).1.emails
          = db.emails.filter (fun r => decide (id ≠ some (r.id : Int)))
      ∧ (deleteEmailById db id).1.sqlite_sequence = db.sqlite_sequence
      ∧ ((deleteEmailById db id).2 = false →
          (deleteEmailById db id).1 = db
            ∧ getEmailCount (deleteEmailById db id).1 = getEmailCount db)
      ∧ (deleteEmailById (deleteEmailById db id).1 id).2 = false
      ∧ ((db.emails.map Row.id).Nodup → (deleteEmailById db id).2 = true →
          getEmailCount (deleteEmailById db id).1 + 1 = getEmailCount db) := by
  cases id with
  | none =>
    simp [deleteEmailById]
  | some i =>
    have hiff := filter_length_lt_iff db.emails i
    have hfilter : db.emails.filter (fun r => decide (some i ≠ some (r.id : Int)))
        = db.emails.filter (fun r => (r.id : Int) != i) := by
      congr 1
      funext r
      by_cases h : (r.id : Int) = i
      · simp [h]
      · have h2 : ¬ i = (r.id : Int) := fun h3 => h h3.symm
        simp [h, h2]
    refine ⟨?_, ?_, rfl, ?_, ?_, ?_⟩
    · simp only [deleteEmailById, decide_eq_true_eq, gt_iff_lt, Option.some.injEq]
      rw [hiff]
      constructor
      · rintro ⟨r, hr, h⟩; exact ⟨r, hr, h.symm⟩
      · rintro ⟨r, hr, h⟩; exact ⟨r, hr, h.symm⟩
    · rw [hfilter]
      rfl
    · intro hfalse
      simp only [deleteEmailById, decide_eq_false_iff_not, gt_iff_lt] at hfalse
      rw [hiff] at hfalse
      have hall : ∀ r ∈ db.emails, ((r.id : Int) != i) = true := by
        intro r hr
        simp only [bne_iff_ne, ne_eq]
        exact fun h => hfalse ⟨r, hr, h⟩
      have hf : db.emails.filter (fun r => (r.id : Int) != i) = db.emails :=
        List.filter_eq_self.mpr hall
      simp only [deleteEmailById, hf, getEmailCount, and_self]
    · simp only [deleteEmailById, decide_eq_false_iff_not, gt_iff_lt, List.filter_filter,
        Bool.and_self]
      omega
    · intro hn htrue
      simp only [deleteEmailById, decide_eq_true_eq, gt_iff_lt] at htrue
      rw [hiff] at htrue
      simp only [deleteEmailById, getEmailCount]
      exact length_filter_of_nodup db.emails i hn htrue

/-- Witness for C6: deleting id 2 from the store of subjects A, B, C. -/
theorem deleteEmailById_spec_witness :
    (abcStore.emails.map Row.id).Nodup ∧ (deleteEmailById abcStore (some 2)).2 = true
      ∧ getEmailCount (deleteEmailById abcStore (some 2)).1 + 1 = getEmailCount abcStore
      ∧ (deleteEmailById (deleteEmailById abcStore (some 2)).1 (some 2)).2 = false :=
  ⟨by decide, by decide,
    (deleteEmailById_spec abcStore (some 2)).2.2.2.2.2 (by decide) (by decide),
    (deleteEmailById_spec abcStore (some 2)).2.2.2.2.1⟩

/-- C7: after `clearAllEmails` the count is 0, and the next `insertEmail`
behaves as the first insert into a database that has just been created and
initialised: it succeeds and is assigned id 1, whatever ids were stored or
recorded before the clear. -/
theorem clearAllEmails_resets (db : Store) (now : Nat) (e : EmailData) :
    getEmailCount (clearAllEmails db) = 0
      ∧ insertEmail (clearAllEmails db) now e
          = insertEmail (initializeDatabase newDatabase) now e
      ∧ ∃ db1 saved, insertEmail (clearAllEmails db) now e = .ok (db1, saved)
          ∧ saved.id = 1 ∧ getEmailCount db1 = 1 := by
  refine ⟨rfl, rfl, ?_⟩
  rw [insertEmail_eq]
  exact ⟨_, _, rfl, rfl, rfl⟩

theorem History.step_inv (h : History) (op : StoreOp) (hinv : h.Inv) : (h.step op).Inv := by
  cases op with
  | insert now e =>
    simp only [History.step]
    rw [insertEmail_eq]
    cases hn : nextRowid h.db with
    | none => exact hinv
    | some lastID =>
      have hgt := nextRowid_gt h.db lastID hn
      simp only []
      constructor
      · rw [List.pairwise_append]
        refine ⟨hinv.stored_sorted, List.pairwise_singleton _ _, ?_⟩
        intro a ha b hb
        rw [List.mem_singleton] at hb
        rw [hb]
        exact hgt.1 a ha
      · intro r hr
        simp only [List.mem_append, List.mem_singleton] at hr
        simp only [Option.getD_some]
        rcases hr with hr | hr
        · exact Nat.le_of_lt (hgt.1 r hr)
        · rw [hr]; exact le_refl _
      · intro r hr
        simp only [List.mem_append, List.mem_singleton] at hr
        rcases hr with hr | hr
        · exact List.mem_cons_of_mem _ (hinv.stored_issued r hr)
        · rw [hr]; exact List.mem_cons_self _ _
      · intro j hj
        simp only [Option.getD_some]
        rcases List.mem_cons.mp hj with hj | hj
        · rw [hj]; exact le_refl _
        · have := hinv.issued_le j hj
          have := hgt.2
          omega
      · refine List.pairwise_cons.mpr ⟨?_, hinv.issued_sorted⟩
        intro j hj
        have := hinv.issued_le j hj
        have := hgt.2
        show j < lastID
        omega
  | delete id =>
    have hsub := deleteEmailById_sublist h.db id
    have hseq := deleteEmailById_sequence h.db id
    simp only [History.step]
    constructor
    · exact hinv.stored_sorted.sublist hsub
    · intro r hr
      simp only [hseq]
      exact hinv.stored_le r (hsub.subset hr)
    · intro r hr
      exact hinv.stored_issued r (hsub.subset hr)
    · intro j hj
      simp only [hseq]
      exact hinv.issued_le j hj
    · exact hinv.issued_sorted
  | clear =>
    simp only [History.step]
    constructor <;> simp [clearAllEmails]

theorem run_inv (ops : List StoreOp) : (run ops).Inv := by
  unfold run
  have hgen : ∀ (l : List StoreOp) (h : History), h.Inv → (l.foldl History.step h).Inv := by
    intro l
    induction l with
    | nil => intro h hh; exact hh
    | cons op rest ih => intro h hh; exact ih _ (History.step_inv h op hh)
  apply hgen
  constructor <;> simp [initializeDatabase, newDatabase]

theorem run_append_single (ops : List StoreOp) (op : StoreOp) :
    run (ops ++ [op]) = (run ops).step op := by
  unfold run
  rw [List.foldl_append]
  rfl

/-- C8: in every store reached from a new database by inserts, deletes and
clears, no two stored messages share an id; the ids assigned since the last
clear are strictly increasing in the order of assignment; every stored id is
one of them; and the next successful insert is assigned an id strictly greater
than all of them, so that an id freed by a delete is not assigned again. -/
theorem run_ids_unique_increasing (ops : List StoreOp) :
    ((run ops).db.emails.map Row.id).Nodup
      ∧ (run ops).issued.Pairwise (fun later earlier => earlier < later)
      ∧ (∀ r ∈ (run ops).db.emails, r.id ∈ (run ops).issued)
      ∧ ∀ (now : Nat) (e : EmailData) (db1 : Store) (saved : SavedEmail),
          insertEmail (run ops).db now e = .ok (db1, saved) →
            (∀ j ∈ (run ops).issued, j < saved.id)
              ∧ (run (ops ++ [StoreOp.insert now e])).issued = saved.id :: (run ops).issued := by
  have hinv := run_inv ops
  refine ⟨?_, hinv.issued_sorted, hinv.stored_issued, ?_⟩
  · rw [List.Nodup, List.pairwise_map]
    exact hinv.stored_sorted.imp (fun h => Nat.ne_of_lt h)
  · intro now e db1 saved hok
    constructor
    · rw [insertEmail_eq] at hok
      cases hn : nextRowid (run ops).db with
      | none => rw [hn] at hok; cases hok
      | some lastID =>
        rw [hn] at hok
        simp only [Except.ok.injEq, Prod.mk.injEq] at hok
        intro j hj
        have h1 := hinv.issued_le j hj
        have h2 := (nextRowid_gt _ lastID hn).2
        rw [← hok.2]
        show j < lastID
        omega
    · rw [run_append_single]
      simp only [History.step, hok]

/-- Witness for C8: after two inserts and the deletion of id 2 the next insert
is assigned id 3, which is greater than both ids assigned before. -/
theorem run_ids_unique_increasing_witness :
    (run insertInsertDelete).issued = [2, 1]
      ∧ (run insertInsertDelete).db.emails.map Row.id = [1]
      ∧ ∃ db1 saved,
          insertEmail (run insertInsertDelete).db 0 (sampleEmail 30 "C") = .ok (db1, saved)
            ∧ saved.id = 3 ∧ ∀ j ∈ (run insertInsertDelete).issued, j < saved.id :=
  ⟨by decide, by decide, _, _, rfl, rfl,
    ((run_ids_unique_increasing insertInsertDelete).2.2.2 0 (sampleEmail 30 "C") _ _ rfl).1⟩


/-! ## Ordering of the listing -/

theorem insertByTimestamp_perm (a : Row) (l : List Row) :
    (insertByTimestamp a l).Perm (a :: l) := by
  induction l with
  | nil => exact List.Perm.refl _
  | cons b rest ih =>
    unfold insertByTimestamp
    split
    · exact ((List.Perm.cons b ih).trans (List.Perm.swap a b rest))
    · exact List.Perm.refl _

theorem orderByTimestampDesc_perm (l : List Row) : (orderByTimestampDesc l).Perm l := by
  induction l with
  | nil => exact List.Perm.refl _
  | cons a rest ih =>
    unfold orderByTimestampDesc
    exact (insertByTimestamp_perm a _).trans (List.Perm.cons a ih)

theorem orderByTimestampDesc_length (l : List Row) :
    (orderByTimestampDesc l).length = l.length :=
  (orderByTimestampDesc_perm l).length_eq

theorem insertByTimestamp_sorted (a : Row) (l : List Row)
    (h : l.Pairwise (fun x y => textLt x.timestamp.toList y.timestamp.toList = false)) :
    (insertByTimestamp a l).Pairwise
      (fun x y => textLt x.timestamp.toList y.timestamp.toList = false) := by
  induction l with
  | nil => simp [insertByTimestamp]
  | cons b rest ih =>
    unfold insertByTimestamp
    rw [List.pairwise_cons] at h
    split
    · rename_i hab
      refine List.pairwise_cons.mpr ⟨?_, ih h.2⟩
      intro y hy
      rcases List.mem_cons.mp ((insertByTimestamp_perm a rest).subset hy) with rfl | hy
      · exact textLt_asymm _ _ hab
      · exact h.1 y hy
    · rename_i hab
      have hab2 : textLt a.timestamp.toList b.timestamp.toList = false := by
        simpa using hab
      refine List.pairwise_cons.mpr ⟨?_, List.pairwise_cons.mpr h⟩
      intro y hy
      rcases List.mem_cons.mp hy with rfl | hy
      · exact hab2
      · exact textLt_not_trans _ _ _ hab2 (h.1 y hy)

theorem orderByTimestampDesc_sorted (l : List Row) :
    (orderByTimestampDesc l).Pairwise
      (fun x y => textLt x.timestamp.toList y.timestamp.toList = false) := by
  induction l with
  | nil => simp [orderByTimestampDesc]
  | cons a rest ih =>
    unfold orderByTimestampDesc
    exact insertByTimestamp_sorted a _ ih

theorem limitOffset_sublist (limit offset : Int) (rows : List Row) :
    (limitOffset limit offset rows).Sublist rows := by
  unfold limitOffset
  split
  · exact List.drop_sublist _ _
  · exact (List.take_sublist _ _).trans (List.drop_sublist _ _)

theorem listing_perm (db : Store) : (listing db).Perm (db.emails.map rowToEmail) :=
  (orderByTimestampDesc_perm db.emails).map rowToEmail

theorem listing_sorted (db : Store) :
    (listing db).Pairwise
      (fun m1 m2 => textLt m1.timestamp.toList m2.timestamp.toList = false) := by
  unfold listing
  rw [List.pairwise_map]
  exact orderByTimestampDesc_sorted db.emails

/-- What `getAllEmails` does: it rejects exactly when the limit or the offset
is not an integer for SQLite, and otherwise returns the rows selected by them
from the listing. -/
theorem getAllEmails_eq (db : Store) (limit offset : Option JsNumber) :
    getAllEmails db limit offset =
      match sqliteInteger (limit.getD (JsNumber.fin 100)),
        sqliteInteger (offset.getD (JsNumber.fin 0)) with
      | some l, some o =>
        .ok ((limitOffset l o (orderByTimestampDesc db.emails)).map rowToEmail)
      | _, _ => .error "SQLITE_MISMATCH: datatype mismatch" := by
  rfl

theorem getAllEmails_sublist (db : Store) (limit offset : Option JsNumber)
    (page : List Email) (h : getAllEmails db limit offset = .ok page) :
    page.Sublist (listing db) := by
  rw [getAllEmails_eq] at h
  split at h
  · simp only [Except.ok.injEq] at h
    rw [← h]
    exact (limitOffset_sublist _ _ _).map rowToEmail
  · cases h

/-- C1 (as amended): the unbounded listing holds exactly the stored messages;
every page returned by `getAllEmails` is a part of it, in its order, which is
the text order of the stored timestamps, descending; so for two messages of a
page whose capture times lie in the years 0000 to 9999, the one captured
later stands first; and the stored timestamp of a message is the ISO text of
its capture time. -/
theorem getAllEmails_newest_first (db : Store) :
    getAllEmails db (some (JsNumber.fin (-1))) none = .ok (listing db)
      ∧ (listing db).Perm (db.emails.map rowToEmail)
      ∧ (∀ (limit offset : Option JsNumber) (page : List Email),
          getAllEmails db limit offset = .ok page →
            page.Sublist (listing db)
              ∧ page.Pairwise
                  (fun m1 m2 => textLt m1.timestamp.toList m2.timestamp.toList = false)
              ∧ ∀ (i j : Nat) (hi : i < page.length) (hj : j < page.length) (t1 t2 : Int),
                  (page.get ⟨i, hi⟩).timestamp = toISOString t1 →
                  (page.get ⟨j, hj⟩).timestamp = toISOString t2 →
                  -62167219200000 ≤ t1 → t1 ≤ 253402300799999 →
                  -62167219200000 ≤ t2 → t2 ≤ 253402300799999 →
                  t2 < t1 → i < j)
      ∧ ∀ (now : Nat) (e : EmailData) (db1 : Store) (saved : SavedEmail),
          insertEmail db now e = .ok (db1, saved) →
            saved.timestamp = toISOString e.timestamp
              ∧ ∃ m ∈ listing db1, m.id = saved.id ∧ m.timestamp = toISOString e.timestamp := by
  refine ⟨?_, listing_perm db, ?_, ?_⟩
  · rw [getAllEmails_eq]
    simp [sqliteInteger, limitOffset, listing]
  · intro limit offset page hpage
    have hsub := getAllEmails_sublist db limit offset page hpage
    have hsorted := (listing_sorted db).sublist hsub
    refine ⟨hsub, hsorted, ?_⟩
    intro i j hi hj t1 t2 h1 h2 ha1 hb1 ha2 hb2 hlt
    have hiso := isoText_lt t2 t1 (isoYear_range t2 ha2 hb2) (isoYear_range t1 ha1 hb1) hlt
    by_contra hij
    rcases Nat.lt_or_eq_of_le (Nat.le_of_not_lt hij) with hji | hji
    · have := (List.pairwise_iff_get.mp hsorted) ⟨j, hj⟩ ⟨i, hi⟩ hji
      rw [h1, h2] at this
      rw [show (toISOString t2).toList = isoText t2 from rfl,
        show (toISOString t1).toList = isoText t1 from rfl, hiso] at this
      cases this
    · subst hji
      rw [h1] at h2
      have heq : isoText t1 = isoText t2 := congrArg String.toList h2
      rw [heq, textLt_irrefl] at hiso
      cases hiso
  · intro now e db1 saved hok
    rw [insertEmail_eq] at hok
    cases hn : nextRowid db with
    | none => rw [hn] at hok; cases hok
    | some lastID =>
      rw [hn] at hok
      simp only [Except.ok.injEq, Prod.mk.injEq] at hok
      obtain ⟨hdb, hsaved⟩ := hok
      subst hdb
      subst hsaved
      refine ⟨rfl, rowToEmail (insertedRow lastID now e), ?_, rfl, rfl⟩
      apply (listing_perm _).symm.subset
      simp

/-- Witness for C1: in the listing of `abcStore` the message at position 0
was captured later than the one at position 1. -/
theorem getAllEmails_newest_first_witness :
    getAllEmails abcStore none none = .ok (listing abcStore)
      ∧ (listing abcStore).map (fun m => m.subject) = ["C", "B", "A"]
      ∧ ((listing abcStore).get ⟨0, by decide⟩).timestamp = toISOString 30
      ∧ ((listing abcStore).get ⟨1, by decide⟩).timestamp = toISOString 20
      ∧ 0 < 1 :=
  ⟨rfl, by decide, by decide, by decide,
    ((getAllEmails_newest_first abcStore).2.2.1 none none (listing abcStore) rfl).2.2
      0 1 (by decide) (by decide) 30 20 (by decide) (by decide) (by decide) (by decide)
      (by decide) (by decide) (by decide)⟩

/-- C1 as stated fails: two messages captured in the same millisecond are
listed with the smaller id first; and a message captured in the year 10000,
whose ISO text begins with `+`, is listed after a message captured in 2023. -/
theorem getAllEmails_tie_smaller_id_first :
    (listing tieStore).map (fun m => (m.id, m.timestamp, m.subject))
        = [(1, "1970-01-01T00:00:01.000Z", "first"), (2, "1970-01-01T00:00:01.000Z", "second")]
      ∧ getAllEmails tieStore none none = .ok (listing tieStore)
      ∧ (listing yearTenThousandStore).map (fun m => (m.id, m.timestamp, m.subject))
        = [(1, "2023-11-14T22:13:20.000Z", "in 2023"),
           (2, "+010000-01-01T00:00:00.000Z", "in 10000")]
      ∧ getAllEmails yearTenThousandStore none none = .ok (listing yearTenThousandStore)
      ∧ toISOString 1700000000000 = "2023-11-14T22:13:20.000Z"
      ∧ toISOString 253402300800000 = "+010000-01-01T00:00:00.000Z" :=
  ⟨by decide, rfl, by decide, rfl, by decide, by decide⟩

/-! ## Rounding to a double -/

theorem doubleExponent_spec (fuel n e : Nat) (he : 1 ≤ e) (h : 2 ^ (52 + e) ≤ n) :
    1 ≤ doubleExponent fuel n e ∧ 2 ^ (52 + doubleExponent fuel n e) ≤ n := by
  induction fuel generalizing e with
  | zero => exact ⟨he, h⟩
  | succ fuel ih =>
    unfold doubleExponent
    split
    · exact ⟨he, h⟩
    · rename_i hlt
      apply ih (e + 1) (by omega)
      have : 52 + (e + 1) = 53 + e := by omega
      rw [this]
      omega

theorem roundToDouble_small (n : Nat) (h : n < 2 ^ 53) : roundToDouble n = some n := by
  unfold roundToDouble
  rw [if_pos h]

theorem roundToDouble_large (n m : Nat) (h : 2 ^ 53 ≤ n) (hm : roundToDouble n = some m) :
    2 ^ 53 ≤ m := by
  unfold roundToDouble at hm
  rw [if_neg (by omega)] at hm
  have hspec := doubleExponent_spec n n 1 (le_refl 1) (by simpa using h)
  generalize doubleExponent n n 1 = e at hm hspec
  obtain ⟨he, hn⟩ := hspec
  have hq : 2 ^ 52 ≤ n / 2 ^ e := by
    rw [Nat.le_div_iff_mul_le (Nat.pow_pos (by decide))]
    rw [← pow_add]
    exact hn
  have he2 : 2 ≤ 2 ^ e := by
    calc 2 = 2 ^ 1 := by norm_num
      _ ≤ 2 ^ e := Nat.pow_le_pow_right (by decide) he
  have h1 : 2 ^ 53 ≤ n / 2 ^ e * 2 ^ e := by
    calc 2 ^ 53 = 2 ^ 52 * 2 := by norm_num
      _ ≤ _ := Nat.mul_le_mul hq he2
  have h2 : 2 ^ 53 ≤ (n / 2 ^ e + 1) * 2 ^ e := by
    calc 2 ^ 53 = 2 ^ 52 * 2 := by norm_num
      _ ≤ _ := Nat.mul_le_mul (by omega) he2
  dsimp only at hm
  split_ifs at hm
  · simp only [Option.some.injEq] at hm
    rw [← hm]
    exact h2
  · simp only [Option.some.injEq] at hm
    rw [← hm]
    exact h1

/-- An integer of magnitude below `2 ^ 53` is its own number value. -/
theorem toDouble_exact (x : Int) (h1 : -9007199254740992 < x) (h2 : x < 9007199254740992) :
    toDouble x = JsNumber.fin x := by
  unfold toDouble
  rw [roundToDouble_small x.natAbs (by norm_num; omega)]
  simp only []
  split
  · congr 1
    omega
  · congr 1
    omega

/-- The number value of a positive integer is positive: an integer that is at
least `2 ^ 53` when the integer is, or positive infinity. -/
theorem toDouble_pos (x : Int) (h : 0 < x) :
    toDouble x = JsNumber.posInf
      ∨ ∃ m : Int, toDouble x = JsNumber.fin m ∧ 0 < m
          ∧ (x < 9007199254740992 → m = x) ∧ (9007199254740992 ≤ x → 9007199254740992 ≤ m) := by
  unfold toDouble
  cases hr : roundToDouble x.natAbs with
  | none =>
    left
    simp only []
    rw [if_neg (by omega)]
  | some m =>
    right
    simp only []
    rw [if_neg (by omega)]
    refine ⟨(m : Int), rfl, ?_⟩
    by_cases hs : x.natAbs < 2 ^ 53
    · rw [roundToDouble_small _ hs] at hr
      simp only [Option.some.injEq] at hr
      norm_num at hs
      refine ⟨by omega, fun _ => by omega, fun _ => by omega⟩
    · have hl := roundToDouble_large _ m (by omega) hr
      norm_num at hs hl
      refine ⟨by omega, fun _ => by omega, fun _ => by omega⟩

/-! ## `parseInt` -/

theorem readSign_of_not_minus (s : List Char) (h : s.head? ≠ some '-') :
    (readSign s).1 = 1 := by
  unfold readSign
  split
  · exact absurd rfl h
  · rfl
  · rfl

theorem radixDigit_ten_of_not_digit (c : Char) (h : isDecimalDigit c = false) :
    radixDigit 10 c = none := by
  unfold isDecimalDigit at h
  unfold radixDigit
  simp only [Bool.and_eq_false_iff, decide_eq_false_iff_not] at h
  simp only []
  split_ifs with h1 h2 h3
  · omega
  · simp [Option.filter]; omega
  · simp [Option.filter]; omega
  · rfl

theorem radixDigit_ten_of_digit (c : Char) (h : isDecimalDigit c = true) :
    radixDigit 10 c = some (c.toNat - 48) := by
  unfold isDecimalDigit at h
  unfold radixDigit
  simp only [Bool.and_eq_true, decide_eq_true_eq] at h
  simp only []
  rw [if_pos h]
  simp [Option.filter]; omega

theorem digitsValue_eq_foldl (cs : List Char) (acc : Nat) :
    List.foldl (fun a d => a * 10 + d) acc (cs.map (fun c => c.toNat - 48))
      = List.foldl (fun a c => 10 * a + (c.toNat - 48)) acc cs := by
  induction cs generalizing acc with
  | nil => rfl
  | cons c t ih =>
    simp only [List.map_cons, List.foldl_cons]
    rw [ih, Nat.mul_comm]

theorem digitsValue_map (cs : List Char) :
    digitsValue 10 (cs.map (fun c => c.toNat - 48))
      = cs.foldl (fun a c => 10 * a + (c.toNat - 48)) 0 := by
  unfold digitsValue
  exact digitsValue_eq_foldl cs 0

theorem leadingDigits_append (ds rest : List Char) (hds : ∀ c ∈ ds, isDecimalDigit c = true)
    (hrest : ∀ c, rest.head? = some c → isDecimalDigit c = false) :
    leadingDigits 10 (ds ++ rest) = ds.map (fun c => c.toNat - 48) := by
  induction ds with
  | nil =>
    cases rest with
    | nil => rfl
    | cons c t =>
      simp only [List.nil_append, List.map_nil]
      unfold leadingDigits
      rw [radixDigit_ten_of_not_digit c (hrest c rfl)]
  | cons c t ih =>
    simp only [List.cons_append, List.map_cons]
    unfold leadingDigits
    rw [radixDigit_ten_of_digit c (hds c (List.mem_cons_self _ _))]
    simp only []
    rw [ih (fun d hd => hds d (List.mem_cons_of_mem _ hd))]

theorem not_whitespace_of_digit (c : Char) (h : isDecimalDigit c = true) :
    isStrWhiteSpaceChar c = false := by
  unfold isDecimalDigit at h
  simp only [Bool.and_eq_true, decide_eq_true_eq] at h
  unfold isStrWhiteSpaceChar
  simp
  omega

theorem readRadix_digits (ds rest : List Char) (hne : ds ≠ [])
    (hds : ∀ c ∈ ds, isDecimalDigit c = true)
    (hhex : ¬ (ds = ['0'] ∧ (rest.head? = some 'x' ∨ rest.head? = some 'X'))) :
    readRadix (ds ++ rest) = (10, ds ++ rest) := by
  unfold readRadix
  split
  · rename_i t heq
    cases ds with
    | nil => exact absurd rfl hne
    | cons c u =>
      cases u with
      | nil =>
        simp only [List.cons_append, List.nil_append, List.cons.injEq] at heq
        exfalso
        apply hhex
        refine ⟨by rw [heq.1], Or.inl ?_⟩
        rw [heq.2]
        rfl
      | cons d v =>
        simp only [List.cons_append, List.cons.injEq] at heq
        have hd := hds d (by simp)
        rw [heq.2.1] at hd
        exact absurd hd (by decide)
  · rename_i t heq
    cases ds with
    | nil => exact absurd rfl hne
    | cons c u =>
      cases u with
      | nil =>
        simp only [List.cons_append, List.nil_append, List.cons.injEq] at heq
        exfalso
        apply hhex
        refine ⟨by rw [heq.1], Or.inr ?_⟩
        rw [heq.2]
        rfl
      | cons d v =>
        simp only [List.cons_append, List.cons.injEq] at heq
        have hd := hds d (by simp)
        rw [heq.2.1] at hd
        exact absurd hd (by decide)
  · rfl

theorem readSign_digits (l : List Char) (c : Char) (h : isDecimalDigit c = true) :
    readSign (c :: l) = (1, c :: l) := by
  unfold readSign
  split
  · rename_i heq; injection heq with h1 _; rw [h1] at h; exact absurd h (by decide)
  · rename_i heq; injection heq with h1 _; rw [h1] at h; exact absurd h (by decide)
  · rfl

/-- The value `parseInt` gives to unsigned text that begins with decimal
digits: the integer of the leading digits, rounded to a double; text that does
not go on with a digit is ignored. -/
theorem parseInt_unsigned (ds rest : List Char) (hne : ds ≠ [])
    (hds : ∀ c ∈ ds, isDecimalDigit c = true)
    (hrest : ∀ c, rest.head? = some c → isDecimalDigit c = false)
    (hhex : ¬ (ds = ['0'] ∧ (rest.head? = some 'x' ∨ rest.head? = some 'X'))) :
    parseInt (ds ++ rest) =
      if ds.foldl (fun a c => 10 * a + (c.toNat - 48)) 0 = 0 then JsNumber.fin 0
      else toDouble ((ds.foldl (fun a c => 10 * a + (c.toNat - 48)) 0 : Nat) : Int) := by
  cases ds with
  | nil => exact absurd rfl hne
  | cons c t =>
    have hc := hds c (List.mem_cons_self _ _)
    have hdrop : ((c :: t) ++ rest).dropWhile isStrWhiteSpaceChar = (c :: t) ++ rest := by
      simp [List.dropWhile_cons, not_whitespace_of_digit c hc]
    have hsign : readSign ((c :: t) ++ rest) = (1, (c :: t) ++ rest) :=
      readSign_digits _ c hc
    unfold parseInt
    rw [hdrop]
    simp only [hsign, readRadix_digits (c :: t) rest hne hds hhex,
      leadingDigits_append (c :: t) rest hds hrest, digitsValue_map]
    generalize List.foldl (fun a c => 10 * a + (c.toNat - 48)) 0 (c :: t) = V
    simp only [List.map_cons, List.isEmpty_cons, Bool.false_eq_true, if_false, one_mul]
    split
    · simp
    · rfl

/-- The value `parseInt` gives to text that begins with a minus sign and
decimal digits. -/
theorem parseInt_minus (ds rest : List Char) (hne : ds ≠ [])
    (hds : ∀ c ∈ ds, isDecimalDigit c = true)
    (hrest : ∀ c, rest.head? = some c → isDecimalDigit c = false)
    (hhex : ¬ (ds = ['0'] ∧ (rest.head? = some 'x' ∨ rest.head? = some 'X'))) :
    parseInt ('-' :: (ds ++ rest)) =
      if ds.foldl (fun a c => 10 * a + (c.toNat - 48)) 0 = 0 then JsNumber.negZero
      else toDouble (-((ds.foldl (fun a c => 10 * a + (c.toNat - 48)) 0 : Nat) : Int)) := by
  have hdrop : ('-' :: (ds ++ rest)).dropWhile isStrWhiteSpaceChar = '-' :: (ds ++ rest) := by
    simp [List.dropWhile_cons, isStrWhiteSpaceChar]
  have hsign : readSign ('-' :: (ds ++ rest)) = (-1, ds ++ rest) := rfl
  unfold parseInt
  rw [hdrop]
  simp only [hsign, readRadix_digits ds rest hne hds hhex,
    leadingDigits_append ds rest hds hrest, digitsValue_map]
  generalize List.foldl (fun a c => 10 * a + (c.toNat - 48)) 0 ds = V
  cases ds with
  | nil => exact absurd rfl hne
  | cons c t =>
    simp only [List.map_cons, List.isEmpty_cons, Bool.false_eq_true, if_false, neg_mul,
      one_mul]
    split
    · simp
    · rfl

/-- The value `parseInt` gives to text that begins with a plus sign and
decimal digits. -/
theorem parseInt_plus (ds rest : List Char) (hne : ds ≠ [])
    (hds : ∀ c ∈ ds, isDecimalDigit c = true) :
    parseInt ('+' :: (ds ++ rest)) = parseInt (ds ++ rest) := by
  have hdrop : ('+' :: (ds ++ rest)).dropWhile isStrWhiteSpaceChar = '+' :: (ds ++ rest) := by
    simp [List.dropWhile_cons, isStrWhiteSpaceChar]
  have hsign : readSign ('+' :: (ds ++ rest)) = (1, ds ++ rest) := rfl
  cases ds with
  | nil => exact absurd rfl hne
  | cons c t =>
    have hc := hds c (List.mem_cons_self _ _)
    have hdrop2 : ((c :: t) ++ rest).dropWhile isStrWhiteSpaceChar = (c :: t) ++ rest := by
      simp [List.dropWhile_cons, not_whitespace_of_digit c hc]
    have hsign2 : readSign ((c :: t) ++ rest) = (1, (c :: t) ++ rest) :=
      readSign_digits _ c hc
    unfold parseInt
    rw [hdrop, hdrop2]
    simp only [hsign, hsign2]

/-- Leading white space does not change the value of `parseInt`. -/
theorem parseInt_whitespace (ws l : List Char)
    (hws : ∀ c ∈ ws, isStrWhiteSpaceChar c = true) :
    parseInt (ws ++ l) = parseInt l := by
  have hdrop : (ws ++ l).dropWhile isStrWhiteSpaceChar = l.dropWhile isStrWhiteSpaceChar := by
    induction ws with
    | nil => rfl
    | cons c t ih =>
      simp only [List.cons_append, List.dropWhile_cons, hws c (List.mem_cons_self _ _), if_true]
      exact ih (fun d hd => hws d (List.mem_cons_of_mem _ hd))
  unfold parseInt
  rw [hdrop]

/-- Text that, after leading white space and an optional sign, does not go on
with a decimal digit gives `NaN`. -/
theorem parseInt_no_leading_digit (l : List Char)
    (h : ∀ c, (readSign (l.dropWhile isStrWhiteSpaceChar)).2.head? = some c →
      isDecimalDigit c = false) :
    parseInt l = JsNumber.nan := by
  unfold parseInt
  generalize (readSign (l.dropWhile isStrWhiteSpaceChar)) = signed at h
  have hradix : readRadix signed.2 = (10, signed.2) := by
    unfold readRadix
    split
    · rename_i heq
      have := h '0' (by rw [heq]; rfl)
      exact absurd this (by decide)
    · rename_i heq
      have := h '0' (by rw [heq]; rfl)
      exact absurd this (by decide)
    · rfl
  have hz : leadingDigits 10 signed.2 = [] := by
    cases hs : signed.2 with
    | nil => rfl
    | cons c t =>
      unfold leadingDigits
      rw [radixDigit_ten_of_not_digit c (h c (by rw [hs]; rfl))]
  simp only [hradix, hz, List.isEmpty_nil, if_true]

/-- Without a leading minus sign `parseInt` gives `NaN`, positive zero,
a positive integer or positive infinity. -/
theorem parseInt_nonneg (input : List Char)
    (h : (input.dropWhile isStrWhiteSpaceChar).head? ≠ some '-') :
    parseInt input = JsNumber.nan ∨ parseInt input = JsNumber.fin 0
      ∨ parseInt input = JsNumber.posInf
      ∨ ∃ m : Int, 0 < m ∧ parseInt input = JsNumber.fin m := by
  unfold parseInt
  simp only [readSign_of_not_minus _ h]
  generalize digitsValue _ _ = V
  split
  · exact Or.inl rfl
  · split
    · right; left
      simp
    · rename_i hz
      have hpos : (0 : Int) < 1 * (V : Int) := by
        simp only [one_mul]
        exact Int.natCast_pos.mpr (Nat.pos_of_ne_zero hz)
      rcases toDouble_pos _ hpos with hinf | ⟨m, hm, hmpos, _⟩
      · right; right; left
        exact hinf
      · right; right; right
        exact ⟨m, hmpos, hm⟩

/-! ## Query parameters of `GET /api/emails` -/

theorem toDouble_truthy (x : Int) (h : x ≠ 0) : (toDouble x).truthy = true := by
  unfold toDouble
  cases hr : roundToDouble x.natAbs with
  | none =>
    simp only []
    split <;> rfl
  | some m =>
    have hm : m ≠ 0 := by
      by_cases hs : x.natAbs < 2 ^ 53
      · rw [roundToDouble_small _ hs] at hr
        simp only [Option.some.injEq] at hr
        omega
      · have := roundToDouble_large _ m (by omega) hr
        norm_num at this
        omega
    simp only []
    split
    · simp only [JsNumber.truthy, bne_iff_ne, ne_eq]
      omega
    · simp only [JsNumber.truthy, bne_iff_ne, ne_eq]
      omega

theorem unsignedPart_other (l : List Char) (h1 : l.head? ≠ some '-')
    (h2 : l.head? ≠ some '+') : unsignedPart (String.mk l) = String.mk l := by
  unfold unsignedPart
  split
  · rename_i d heq
    have : l = '-' :: d := heq
    rw [this] at h1
    exact absurd rfl h1
  · rename_i d heq
    have : l = '+' :: d := heq
    rw [this] at h2
    exact absurd rfl h2
  · rfl

theorem integerValue_other (l : List Char) (h1 : l.head? ≠ some '-') :
    integerValue (String.mk l) = (decimalValue (unsignedPart (String.mk l)) : Int) := by
  unfold integerValue
  split
  · rename_i d heq
    have : l = '-' :: d := heq
    rw [this] at h1
    exact absurd rfl h1
  · rfl

theorem sign_cases (l : List Char) :
    (∃ t, l = '-' :: t) ∨ (∃ t, l = '+' :: t)
      ∨ (l.head? ≠ some '-' ∧ l.head? ≠ some '+') := by
  cases l with
  | nil => exact Or.inr (Or.inr ⟨by simp, by simp⟩)
  | cons c t =>
    by_cases hm : c = '-'
    · exact Or.inl ⟨t, by rw [hm]⟩
    · by_cases hp : c = '+'
      · exact Or.inr (Or.inl ⟨t, by rw [hp]⟩)
      · exact Or.inr (Or.inr ⟨by simpa using hm, by simpa using hp⟩)

theorem digits_of_isDigitString (l : List Char) (h : isDigitString (String.mk l) = true) :
    l ≠ [] ∧ ∀ c ∈ l, isDecimalDigit c = true := by
  unfold isDigitString at h
  simp only [String.toList, Bool.and_eq_true, Bool.not_eq_true', List.all_eq_true] at h
  refine ⟨?_, h.2⟩
  intro hnil
  rw [hnil] at h
  simp at h

/-- The value `parseInt` gives to a numeric string, also when text that does
not begin with a digit follows it. -/
theorem parseInt_integerString (s : String) (rest : List Char)
    (h : isIntegerString s = true)
    (hrest : ∀ c, rest.head? = some c → isDecimalDigit c = false)
    (hhex : ¬ ((unsignedPart s).toList = ['0']
      ∧ (rest.head? = some 'x' ∨ rest.head? = some 'X'))) :
    parseInt (s.toList ++ rest) =
      if integerValue s = 0 then
        (if s.toList.head? = some '-' then JsNumber.negZero else JsNumber.fin 0)
      else toDouble (integerValue s) := by
  cases s with
  | mk l =>
    unfold isIntegerString at h
    rcases sign_cases l with ⟨t, rfl⟩ | ⟨t, rfl⟩ | ⟨h1, h2⟩
    · have hu : unsignedPart (String.mk ('-' :: t)) = String.mk t := rfl
      rw [hu] at h hhex
      obtain ⟨hne, hall⟩ := digits_of_isDigitString t h
      have hv : integerValue (String.mk ('-' :: t))
          = -((List.foldl (fun a c => 10 * a + (c.toNat - 48)) 0 t : Nat) : Int) := rfl
      rw [hv]
      have := parseInt_minus t rest hne hall hrest hhex
      simp only [String.toList, List.cons_append, List.head?_cons, if_true]
      rw [this]
      by_cases hz : List.foldl (fun a c => 10 * a + (c.toNat - 48)) 0 t = 0
      · simp [hz]
      · have hz2 : ¬ (-((List.foldl (fun a c => 10 * a + (c.toNat - 48)) 0 t : Nat) : Int) = 0) := by
          omega
        rw [if_neg hz, if_neg hz2]
    · have hu : unsignedPart (String.mk ('+' :: t)) = String.mk t := rfl
      rw [hu] at h hhex
      obtain ⟨hne, hall⟩ := digits_of_isDigitString t h
      have hv : integerValue (String.mk ('+' :: t))
          = ((List.foldl (fun a c => 10 * a + (c.toNat - 48)) 0 t : Nat) : Int) := rfl
      rw [hv]
      have := parseInt_unsigned t rest hne hall hrest hhex
      simp only [String.toList, List.cons_append, List.head?_cons]
      rw [parseInt_plus t rest hne hall, this]
      by_cases hz : List.foldl (fun a c => 10 * a + (c.toNat - 48)) 0 t = 0
      · simp [hz]
      · have hz2 : ¬ (((List.foldl (fun a c => 10 * a + (c.toNat - 48)) 0 t : Nat) : Int) = 0) := by
          omega
        rw [if_neg hz, if_neg hz2]
    · have hu := unsignedPart_other l h1 h2
      rw [hu] at h hhex
      obtain ⟨hne, hall⟩ := digits_of_isDigitString l h
      have hv : integerValue (String.mk l)
          = ((List.foldl (fun a c => 10 * a + (c.toNat - 48)) 0 l : Nat) : Int) := by
        rw [integerValue_other l h1, hu]
        rfl
      rw [hv]
      have := parseInt_unsigned l rest hne hall hrest hhex
      simp only [String.toList]
      rw [this]
      by_cases hz : List.foldl (fun a c => 10 * a + (c.toNat - 48)) 0 l = 0
      · simp [hz, h1]
      · have hz2 : ¬ (((List.foldl (fun a c => 10 * a + (c.toNat - 48)) 0 l : Nat) : Int) = 0) := by
          omega
        rw [if_neg hz, if_neg hz2]

theorem readSign_other (l : List Char) (h1 : l.head? ≠ some '-') (h2 : l.head? ≠ some '+') :
    readSign l = (1, l) := by
  unfold readSign
  split
  · exact absurd rfl h1
  · exact absurd rfl h2
  · rfl

theorem unsignedPart_toList (l : List Char) :
    (unsignedPart (String.mk l)).toList = (readSign l).2 := by
  rcases sign_cases l with ⟨t, rfl⟩ | ⟨t, rfl⟩ | ⟨h1, h2⟩
  · rfl
  · rfl
  · rw [unsignedPart_other l h1 h2, readSign_other l h1 h2]
    rfl

theorem parseInt_of_hasNoLeadingDigit (s : String) (h : hasNoLeadingDigit s = true) :
    parseInt s.toList = JsNumber.nan := by
  apply parseInt_no_leading_digit
  intro c hc
  unfold hasNoLeadingDigit at h
  simp only [unsignedPart_toList] at h
  split at h
  · rename_i d t heq
    rw [heq] at hc
    simp only [List.head?_cons, Option.some.injEq] at hc
    rw [← hc]
    simpa using h
  · rename_i heq
    rw [heq] at hc
    cases hc

theorem numOr_nan (d : JsNumber) : numOr JsNumber.nan d = d := rfl

theorem numOr_toDouble (x : Int) (d : JsNumber) (h : x ≠ 0) :
    numOr (toDouble x) d = toDouble x := by
  unfold numOr
  rw [toDouble_truthy x h, if_pos rfl]

theorem numOr_integerString (s : String) (rest : List Char) (d : JsNumber)
    (h : isIntegerString s = true)
    (hrest : ∀ c, rest.head? = some c → isDecimalDigit c = false)
    (hhex : ¬ ((unsignedPart s).toList = ['0']
      ∧ (rest.head? = some 'x' ∨ rest.head? = some 'X'))) :
    numOr (parseInt (s.toList ++ rest)) d
      = if integerValue s = 0 then d else toDouble (integerValue s) := by
  rw [parseInt_integerString s rest h hrest hhex]
  by_cases hz : integerValue s = 0
  · rw [if_pos hz, if_pos hz]
    split <;> rfl
  · rw [if_neg hz, if_neg hz]
    exact numOr_toDouble _ d hz

/-- C3 (as amended): the limit is 100 and the offset 0 when the parameter is
absent or when, after leading white space and an optional sign, it does not go
on with a decimal digit; for a numeric string (an optional sign and decimal
digits) the limit is the number value of its integer value, except that the
value 0 gives 100, and the offset is the number value of its integer value;
the number value is the integer itself below `2 ^ 53` in magnitude and the
nearest double beyond; white space before a numeric string and text after it
that does not begin with a digit (nor makes a `0x` marker) are ignored; and
the default arguments of `getAllEmails` are limit 100 and offset 0. -/
theorem queryLimit_queryOffset_defaults (db : Store) (s : String) (ws rest : List Char) :
    queryLimit none = JsNumber.fin 100 ∧ queryOffset none = JsNumber.fin 0
      ∧ (hasNoLeadingDigit s = true →
          queryLimit (some s) = JsNumber.fin 100 ∧ queryOffset (some s) = JsNumber.fin 0)
      ∧ (isIntegerString s = true →
          queryLimit (some s)
              = (if integerValue s = 0 then JsNumber.fin 100 else toDouble (integerValue s))
            ∧ queryOffset (some s)
              = (if integerValue s = 0 then JsNumber.fin 0 else toDouble (integerValue s))
            ∧ (-9007199254740992 < integerValue s → integerValue s < 9007199254740992 →
                toDouble (integerValue s) = JsNumber.fin (integerValue s))
            ∧ ((∀ c ∈ ws, isStrWhiteSpaceChar c = true) →
                (∀ c, rest.head? = some c → isDecimalDigit c = false) →
                ¬ ((unsignedPart s).toList = ['0']
                    ∧ (rest.head? = some 'x' ∨ rest.head? = some 'X')) →
                queryLimit (some (String.mk (ws ++ (s.toList ++ rest)))) = queryLimit (some s)
                  ∧ queryOffset (some (String.mk (ws ++ (s.toList ++ rest))))
                      = queryOffset (some s)))
      ∧ getAllEmails db none none
          = getAllEmails db (some (JsNumber.fin 100)) (some (JsNumber.fin 0)) := by
  refine ⟨by decide, by decide, ?_, ?_, rfl⟩
  · intro h
    have hp := parseInt_of_hasNoLeadingDigit s h
    simp only [queryLimit, queryOffset, queryToString, hp, numOr_nan, and_self]
  · intro h
    have hnil : ∀ c, ([] : List Char).head? = some c → isDecimalDigit c = false := by
      intro c hc
      cases hc
    have hnohex : ¬ ((unsignedPart s).toList = ['0']
        ∧ (([] : List Char).head? = some 'x' ∨ ([] : List Char).head? = some 'X')) := by
      rintro ⟨_, h1 | h1⟩ <;> cases h1
    have hL := numOr_integerString s [] (JsNumber.fin 100) h hnil hnohex
    have hO := numOr_integerString s [] (JsNumber.fin 0) h hnil hnohex
    rw [List.append_nil] at hL hO
    refine ⟨hL, hO, fun h1 h2 => toDouble_exact _ h1 h2, ?_⟩
    intro hws hrest hhex
    have hL2 := numOr_integerString s rest (JsNumber.fin 100) h hrest hhex
    have hO2 := numOr_integerString s rest (JsNumber.fin 0) h hrest hhex
    simp only [queryLimit, queryOffset, queryToString, String.toList,
      parseInt_whitespace ws _ hws]
    exact ⟨hL2.trans hL.symm, hO2.trans hO.symm⟩

/-- Witness for C3: `abc1` gives the defaults, `-5` gives -5 for both, and
` 25px` is read as `25`. -/
theorem queryLimit_queryOffset_defaults_witness :
    (queryLimit (some "abc1") = JsNumber.fin 100 ∧ queryOffset (some "abc1") = JsNumber.fin 0)
      ∧ queryLimit (some "-5") = JsNumber.fin (-5)
      ∧ queryOffset (some "-5") = JsNumber.fin (-5)
      ∧ queryLimit (some " 25px") = queryLimit (some "25")
      ∧ queryLimit (some "25") = JsNumber.fin 25 :=
  have h5 := (queryLimit_queryOffset_defaults newDatabase "-5" [] []).2.2.2.1 (by decide)
  have h25 := (queryLimit_queryOffset_defaults newDatabase "25" [' '] ['p', 'x']).2.2.2.1
    (by decide)
  ⟨(queryLimit_queryOffset_defaults newDatabase "abc1" [] []).2.2.1 (by decide),
    h5.1.trans (by decide), h5.2.1.trans (by decide),
    (h25.2.2.2 (by decide) (by decide) (by decide)).1, h25.1.trans (by decide)⟩

/-- C3 as stated fails: `0` is a numeric string of integer value 0 and the
limit used for it is 100; `9007199254740993` is a numeric string and the limit
used and echoed for it is 9007199254740992. -/
theorem queryLimit_zero_is_default :
    isIntegerString "0" = true ∧ integerValue "0" = 0
      ∧ queryLimit (some "0") = JsNumber.fin 100
      ∧ (getApiEmails abcStore (some "0") none).toOption.map (fun b => b.pagination.limit)
          = some (JsNumber.fin 100)
      ∧ isIntegerString "9007199254740993" = true
      ∧ integerValue "9007199254740993" = 9007199254740993
      ∧ queryLimit (some "9007199254740993") = JsNumber.fin 9007199254740992
      ∧ (getApiEmails abcStore (some "9007199254740993") none).toOption.map
            (fun b => b.pagination.limit)
          = some (JsNumber.fin 9007199254740992) := by
  decide

theorem head_ne_minus_of_noLeadingMinus (q : Option String) (h : noLeadingMinus q = true) :
    ((queryToString q).dropWhile isStrWhiteSpaceChar).head? ≠ some '-' := by
  unfold noLeadingMinus at h
  split at h
  · rename_i c t heq
    rw [heq]
    intro hc
    simp only [List.head?_cons, Option.some.injEq] at hc
    rw [hc] at h
    exact absurd h (by decide)
  · rename_i heq
    rw [heq]
    simp

theorem numOr_of_nonneg (x : JsNumber) (d : Int) (hd : 0 ≤ d)
    (hx : x = JsNumber.nan ∨ x = JsNumber.fin 0 ∨ x = JsNumber.posInf
      ∨ ∃ m : Int, 0 < m ∧ x = JsNumber.fin m) :
    numOr x (JsNumber.fin d) = JsNumber.posInf
      ∨ ∃ m : Int, 0 ≤ m ∧ (0 < d → 0 < m) ∧ numOr x (JsNumber.fin d) = JsNumber.fin m := by
  rcases hx with h | h | h | ⟨m, hm, h⟩
  · right
    exact ⟨d, hd, fun h => h, by rw [h]; rfl⟩
  · right
    exact ⟨d, hd, fun h => h, by rw [h]; rfl⟩
  · left
    rw [h]
    rfl
  · right
    refine ⟨m, by omega, fun _ => hm, ?_⟩
    rw [h]
    unfold numOr
    have : (JsNumber.fin m).truthy = true := by
      simp only [JsNumber.truthy, bne_iff_ne, ne_eq]
      omega
    rw [this, if_pos rfl]

/-- A limit or offset computed with a default is never a zero read as
`negZero` nor `NaN`: SQLite takes it exactly when it is an integer strictly
between the smallest and the largest 64-bit integer. -/
theorem sqliteInteger_numOr (x : JsNumber) (d v : Int)
    (h : sqliteInteger (numOr x (JsNumber.fin d)) = some v) :
    numOr x (JsNumber.fin d) = JsNumber.fin v
      ∧ -9223372036854775808 < v ∧ v < 9223372036854775808 := by
  have hcases : numOr x (JsNumber.fin d) = JsNumber.posInf
      ∨ numOr x (JsNumber.fin d) = JsNumber.negInf
      ∨ ∃ m : Int, numOr x (JsNumber.fin d) = JsNumber.fin m := by
    unfold numOr
    cases x with
    | nan => exact Or.inr (Or.inr ⟨d, rfl⟩)
    | posInf => exact Or.inl rfl
    | negInf => exact Or.inr (Or.inl rfl)
    | negZero => exact Or.inr (Or.inr ⟨d, rfl⟩)
    | fin n =>
      by_cases hn : (JsNumber.fin n).truthy = true
      · exact Or.inr (Or.inr ⟨n, by rw [if_pos hn]⟩)
      · exact Or.inr (Or.inr ⟨d, by rw [if_neg hn]⟩)
  rcases hcases with hc | hc | ⟨m, hc⟩
  · rw [hc] at h
    cases h
  · rw [hc] at h
    cases h
  · rw [hc] at h ⊢
    simp only [sqliteInteger] at h
    split_ifs at h with hr
    simp only [Option.some.injEq] at h
    subst h
    exact ⟨rfl, hr.1, hr.2⟩

theorem sqliteInteger_fin (v : Int) (h1 : -9223372036854775808 < v)
    (h2 : v < 9223372036854775808) : sqliteInteger (JsNumber.fin v) = some v := by
  simp only [sqliteInteger]
  rw [if_pos ⟨h1, h2⟩]

/-- What the route does with `getAllEmails`: status 500 when it rejects, and
otherwise the page with the pagination object. -/
theorem getApiEmails_eq (db : Store) (qLimit qOffset : Option String) :
    getApiEmails db qLimit qOffset =
      match getAllEmails db (some (queryLimit qLimit)) (some (queryOffset qOffset)) with
      | .error _ => .error "Failed to fetch emails"
      | .ok emails =>
        .ok
          { emails := emails
            pagination :=
              { limit := queryLimit qLimit
                offset := queryOffset qOffset
                total := getEmailCount db
                hasMore := ((queryOffset qOffset).add (queryLimit qLimit)).lt
                  (JsNumber.fin (getEmailCount db : Int)) } } := by
  rfl

/-- The answer of the route when it succeeds: what was handed to
`getAllEmails` and what is echoed. -/
theorem getApiEmails_ok (db : Store) (qLimit qOffset : Option String) (body : EmailsResponse)
    (h : getApiEmails db qLimit qOffset = .ok body) :
    body.pagination.limit = queryLimit qLimit
      ∧ body.pagination.offset = queryOffset qOffset
      ∧ body.pagination.total = getEmailCount db
      ∧ body.pagination.hasMore
          = ((queryOffset qOffset).add (queryLimit qLimit)).lt
              (JsNumber.fin (getEmailCount db : Int))
      ∧ getAllEmails db (some (queryLimit qLimit)) (some (queryOffset qOffset))
          = .ok body.emails
      ∧ ∃ l o : Int, -9223372036854775808 < l ∧ l < 9223372036854775808
          ∧ -9223372036854775808 < o ∧ o < 9223372036854775808
          ∧ queryLimit qLimit = JsNumber.fin l ∧ queryOffset qOffset = JsNumber.fin o
          ∧ body.emails = (limitOffset l o (orderByTimestampDesc db.emails)).map rowToEmail := by
  rw [getApiEmails_eq] at h
  cases hg : getAllEmails db (some (queryLimit qLimit)) (some (queryOffset qOffset)) with
  | error e =>
    rw [hg] at h
    cases h
  | ok emails =>
    rw [hg] at h
    simp only [Except.ok.injEq] at h
    subst h
    refine ⟨rfl, rfl, rfl, rfl, rfl, ?_⟩
    rw [getAllEmails_eq] at hg
    simp only [Option.getD_some] at hg
    cases hl : sqliteInteger (queryLimit qLimit) with
    | none =>
      rw [hl] at hg
      cases hg
    | some l =>
      cases ho : sqliteInteger (queryOffset qOffset) with
      | none =>
        rw [hl, ho] at hg
        cases hg
      | some o =>
        rw [hl, ho] at hg
        simp only [Except.ok.injEq] at hg
        have h1 := sqliteInteger_numOr _ 100 l hl
        have h2 := sqliteInteger_numOr _ 0 o ho
        exact ⟨l, o, h1.2.1, h1.2.2, h2.2.1, h2.2.2, h1.1, h2.1, hg.symm⟩

/-- The route succeeds when the limit and the offset it computed are integers
that SQLite takes. -/
theorem getApiEmails_of_integers (db : Store) (qLimit qOffset : Option String) (l o : Int)
    (hl : queryLimit qLimit = JsNumber.fin l) (ho : queryOffset qOffset = JsNumber.fin o)
    (hl1 : -9223372036854775808 < l) (hl2 : l < 9223372036854775808)
    (ho1 : -9223372036854775808 < o) (ho2 : o < 9223372036854775808) :
    getApiEmails db qLimit qOffset =
      .ok
        { emails := (limitOffset l o (orderByTimestampDesc db.emails)).map rowToEmail
          pagination :=
            { limit := JsNumber.fin l
              offset := JsNumber.fin o
              total := getEmailCount db
              hasMore := ((JsNumber.fin o).add (JsNumber.fin l)).lt
                (JsNumber.fin (getEmailCount db : Int)) } } := by
  rw [getApiEmails_eq, getAllEmails_eq]
  simp only [Option.getD_some, hl, ho, sqliteInteger_fin l hl1 hl2, sqliteInteger_fin o ho1 ho2]

/-- C2 (as amended): when `GET /api/emails` answers with a pagination object,
the limit and offset echoed in it are the values handed to `getAllEmails`
and are integers strictly between the smallest and the largest 64-bit
integer, and that is the only case in which it answers so. When a query
string does not begin, after leading white space, with a minus sign (absent,
non-numeric, zero, fractional and positive values included), the value
computed from it is not negative: a positive integer for the limit, a
non-negative integer for the offset, or positive infinity. A minus sign
before a digit string of non-zero value gives the negative of the number
value of the digits. -/
theorem getApiEmails_limit_offset_nonneg (db : Store) (qLimit qOffset : Option String)
    (d : String) :
    (∀ body, getApiEmails db qLimit qOffset = .ok body →
        body.pagination.limit = queryLimit qLimit
          ∧ body.pagination.offset = queryOffset qOffset
          ∧ getAllEmails db (some (queryLimit qLimit)) (some (queryOffset qOffset))
              = .ok body.emails
          ∧ ∃ l o : Int, -9223372036854775808 < l ∧ l < 9223372036854775808
              ∧ -9223372036854775808 < o ∧ o < 9223372036854775808
              ∧ body.pagination.limit = JsNumber.fin l
              ∧ body.pagination.offset = JsNumber.fin o)
      ∧ ((∃ body, getApiEmails db qLimit qOffset = .ok body)
          ↔ ∃ l o : Int, -9223372036854775808 < l ∧ l < 9223372036854775808
              ∧ -9223372036854775808 < o ∧ o < 9223372036854775808
              ∧ queryLimit qLimit = JsNumber.fin l ∧ queryOffset qOffset = JsNumber.fin o)
      ∧ (noLeadingMinus qLimit = true →
          (queryLimit qLimit = JsNumber.posInf
            ∨ ∃ l : Int, 0 < l ∧ queryLimit qLimit = JsNumber.fin l)
          ∧ ∀ body, getApiEmails db qLimit qOffset = .ok body →
              ∃ l : Int, 0 < l ∧ l < 9223372036854775808
                ∧ body.pagination.limit = JsNumber.fin l)
      ∧ (noLeadingMinus qOffset = true →
          (queryOffset qOffset = JsNumber.posInf
            ∨ ∃ o : Int, 0 ≤ o ∧ queryOffset qOffset = JsNumber.fin o)
          ∧ ∀ body, getApiEmails db qLimit qOffset = .ok body →
              ∃ o : Int, 0 ≤ o ∧ o < 9223372036854775808
                ∧ body.pagination.offset = JsNumber.fin o)
      ∧ (isDigitString d = true → 0 < decimalValue d →
          queryLimit (some (String.mk ('-' :: d.toList)))
              = toDouble (-(decimalValue d : Int))
            ∧ queryOffset (some (String.mk ('-' :: d.toList)))
              = toDouble (-(decimalValue d : Int))
            ∧ (decimalValue d < 9007199254740992 →
                toDouble (-(decimalValue d : Int)) = JsNumber.fin (-(decimalValue d : Int)))) := by
  have hlim : noLeadingMinus qLimit = true →
      (queryLimit qLimit = JsNumber.posInf
        ∨ ∃ l : Int, 0 < l ∧ queryLimit qLimit = JsNumber.fin l) := by
    intro hl
    have := numOr_of_nonneg _ 100 (by decide)
      (parseInt_nonneg _ (head_ne_minus_of_noLeadingMinus qLimit hl))
    rcases this with h | ⟨m, _, hm, h⟩
    · exact Or.inl h
    · exact Or.inr ⟨m, hm (by decide), h⟩
  have hoff : noLeadingMinus qOffset = true →
      (queryOffset qOffset = JsNumber.posInf
        ∨ ∃ o : Int, 0 ≤ o ∧ queryOffset qOffset = JsNumber.fin o) := by
    intro ho
    have := numOr_of_nonneg _ 0 (by decide)
      (parseInt_nonneg _ (head_ne_minus_of_noLeadingMinus qOffset ho))
    rcases this with h | ⟨m, hm, _, h⟩
    · exact Or.inl h
    · exact Or.inr ⟨m, hm, h⟩
  refine ⟨?_, ?_, ?_, ?_, ?_⟩
  · intro body hb
    obtain ⟨h1, h2, _, _, h5, l, o, hl1, hl2, ho1, ho2, hl, ho, _⟩ :=
      getApiEmails_ok db qLimit qOffset body hb
    exact ⟨h1, h2, h5, l, o, hl1, hl2, ho1, ho2, h1.trans hl, h2.trans ho⟩
  · constructor
    · rintro ⟨body, hb⟩
      obtain ⟨_, _, _, _, _, l, o, hl1, hl2, ho1, ho2, hl, ho, _⟩ :=
        getApiEmails_ok db qLimit qOffset body hb
      exact ⟨l, o, hl1, hl2, ho1, ho2, hl, ho⟩
    · rintro ⟨l, o, hl1, hl2, ho1, ho2, hl, ho⟩
      exact ⟨_, getApiEmails_of_integers db qLimit qOffset l o hl ho hl1 hl2 ho1 ho2⟩
  · intro hl
    refine ⟨hlim hl, ?_⟩
    intro body hb
    obtain ⟨h1, _, _, _, _, l, o, _, hl2, _, _, hql, _, _⟩ :=
      getApiEmails_ok db qLimit qOffset body hb
    rcases hlim hl with hinf | ⟨m, hm, hfin⟩
    · rw [hinf] at hql
      cases hql
    · rw [hfin] at hql
      simp only [JsNumber.fin.injEq] at hql
      exact ⟨l, by omega, hl2, h1.trans (by rw [hfin, hql])⟩
  · intro ho
    refine ⟨hoff ho, ?_⟩
    intro body hb
    obtain ⟨_, h2, _, _, _, l, o, _, _, _, ho2, _, hqo, _⟩ :=
      getApiEmails_ok db qLimit qOffset body hb
    rcases hoff ho with hinf | ⟨m, hm, hfin⟩
    · rw [hinf] at hqo
      cases hqo
    · rw [hfin] at hqo
      simp only [JsNumber.fin.injEq] at hqo
      exact ⟨o, by omega, ho2, h2.trans (by rw [hfin, hqo])⟩
  · intro hd hpos
    cases d with
    | mk l =>
      obtain ⟨hne, hall⟩ := digits_of_isDigitString l hd
      have hnil : ∀ c, ([] : List Char).head? = some c → isDecimalDigit c = false := by
        intro c hc
        cases hc
      have hnohex : ¬ (l = ['0']
          ∧ (([] : List Char).head? = some 'x' ∨ ([] : List Char).head? = some 'X')) := by
        rintro ⟨_, h1 | h1⟩ <;> cases h1
      have hp := parseInt_minus l [] hne hall hnil hnohex
      rw [List.append_nil] at hp
      have hv : decimalValue (String.mk l)
          = List.foldl (fun a c => 10 * a + (c.toNat - 48)) 0 l := rfl
      rw [← hv, if_neg (by omega)] at hp
      have hnz : -(decimalValue (String.mk l) : Int) ≠ 0 := by omega
      refine ⟨?_, ?_, ?_⟩
      · simp only [queryLimit, queryToString, String.toList, hp]
        exact numOr_toDouble _ _ hnz
      · simp only [queryOffset, queryToString, String.toList, hp]
        exact numOr_toDouble _ _ hnz
      · intro hsmall
        exact toDouble_exact _ (by omega) (by omega)

/-- Witness for C2: a fractional limit and an absent offset give the
integers 2 and 0, and `-5` gives the negative of the value of `5`. -/
theorem getApiEmails_limit_offset_nonneg_witness :
    noLeadingMinus (some "2.5") = true ∧ noLeadingMinus none = true
      ∧ (queryLimit (some "2.5") = JsNumber.posInf
          ∨ ∃ l : Int, 0 < l ∧ queryLimit (some "2.5") = JsNumber.fin l)
      ∧ (queryOffset none = JsNumber.posInf
          ∨ ∃ o : Int, 0 ≤ o ∧ queryOffset none = JsNumber.fin o)
      ∧ queryLimit (some "2.5") = JsNumber.fin 2 ∧ queryOffset none = JsNumber.fin 0
      ∧ queryLimit (some (String.mk ('-' :: "5".toList)))
          = toDouble (-(decimalValue "5" : Int)) :=
  have h := getApiEmails_limit_offset_nonneg abcStore (some "2.5") none "5"
  ⟨by decide, by decide, (h.2.2.1 (by decide)).1, (h.2.2.2.1 (by decide)).1, by decide,
    by decide, (h.2.2.2.2 (by decide) (by decide)).1⟩

/-- C2 as stated fails: the query strings `-5` and `-3` reach `getAllEmails`
and the pagination object as the negative integers -5 and -3. -/
theorem getApiEmails_negative_limit_offset :
    queryLimit (some "-5") = JsNumber.fin (-5) ∧ queryOffset (some "-3") = JsNumber.fin (-3)
      ∧ (getApiEmails abcStore (some "-5") (some "-3")).toOption.map
            (fun b => (b.pagination.limit, b.pagination.offset))
          = some (JsNumber.fin (-5), JsNumber.fin (-3)) := by
  decide

/-! ## Pages of the listing -/

theorem listing_length (db : Store) : (listing db).length = getEmailCount db := by
  unfold listing getEmailCount
  rw [List.length_map, orderByTimestampDesc_length]

theorem limitOffset_map_of_nonneg (db : Store) (l o : Int) (hl : 0 ≤ l) :
    (limitOffset l o (orderByTimestampDesc db.emails)).map rowToEmail
      = ((listing db).drop o.toNat).take l.toNat := by
  unfold listing limitOffset
  simp only []
  rw [if_neg (by omega)]
  rw [List.map_take, List.map_drop]

theorem limitOffset_past_end (db : Store) (l o : Int) (h : (getEmailCount db : Int) ≤ o) :
    limitOffset l o (orderByTimestampDesc db.emails) = [] := by
  have hd : (orderByTimestampDesc db.emails).drop o.toNat = [] := by
    apply List.drop_eq_nil_of_le
    rw [orderByTimestampDesc_length]
    unfold getEmailCount at h
    omega
  unfold limitOffset
  simp only [hd]
  split <;> simp

/-- C4 (as amended): `getAllEmails` rejects exactly when the limit or the
offset, with the defaults applied, is not an integer that SQLite takes (an
integer strictly between the smallest and the largest 64-bit integer). For
every limit that SQLite takes, given or defaulted, and every such offset at
least as large as `getEmailCount`, it returns the empty list; and the answer
of `GET /api/emails` for such a limit and offset is sent with no emails and a
total equal to `getEmailCount`. -/
theorem getAllEmails_offset_past_end (db : Store) (limit : Option JsNumber) (l o : Int) :
    ((∃ e, getAllEmails db limit (some (JsNumber.fin o)) = .error e)
        ↔ (sqliteInteger (limit.getD (JsNumber.fin 100)) = none
            ∨ sqliteInteger (JsNumber.fin o) = none))
      ∧ (sqliteInteger (limit.getD (JsNumber.fin 100)) = some l →
          (getEmailCount db : Int) ≤ o → o < 9223372036854775808 →
            getAllEmails db limit (some (JsNumber.fin o)) = .ok [])
      ∧ ∀ qLimit qOffset : Option String,
          queryLimit qLimit = JsNumber.fin l → queryOffset qOffset = JsNumber.fin o →
          -9223372036854775808 < l → l < 9223372036854775808 →
          (getEmailCount db : Int) ≤ o → o < 9223372036854775808 →
            ∃ body, getApiEmails db qLimit qOffset = .ok body ∧ body.emails = []
              ∧ body.pagination.total = getEmailCount db := by
  refine ⟨?_, ?_, ?_⟩
  · rw [getAllEmails_eq]
    simp only [Option.getD_some]
    cases h1 : sqliteInteger (limit.getD (JsNumber.fin 100)) with
    | none => simp
    | some x =>
      cases h2 : sqliteInteger (JsNumber.fin o) with
      | none => simp
      | some y => simp
  · intro hl hcount hmax
    have ho : sqliteInteger (JsNumber.fin o) = some o :=
      sqliteInteger_fin o (by unfold getEmailCount at hcount; omega) hmax
    rw [getAllEmails_eq]
    simp only [Option.getD_some, hl, ho, limitOffset_past_end db l o hcount, List.map_nil]
  · intro qLimit qOffset hl ho hl1 hl2 hcount hmax
    have ho1 : -9223372036854775808 < o := by
      unfold getEmailCount at hcount
      omega
    refine ⟨_, getApiEmails_of_integers db qLimit qOffset l o hl ho hl1 hl2 ho1 hmax, ?_, rfl⟩
    simp only [limitOffset_past_end db l o hcount, List.map_nil]

/-- Witness for C4: three stored messages, offset 3. -/
theorem getAllEmails_offset_past_end_witness :
    sqliteInteger ((some (JsNumber.fin 2)).getD (JsNumber.fin 100)) = some 2
      ∧ (getEmailCount abcStore : Int) ≤ 3
      ∧ getAllEmails abcStore (some (JsNumber.fin 2)) (some (JsNumber.fin 3)) = .ok []
      ∧ ∃ body, getApiEmails abcStore (some "2") (some "3") = .ok body ∧ body.emails = []
          ∧ body.pagination.total = getEmailCount abcStore :=
  have h := getAllEmails_offset_past_end abcStore (some (JsNumber.fin 2)) 2 3
  ⟨by decide, by decide, h.2.1 (by decide) (by decide) (by decide),
    h.2.2 (some "2") (some "3") (by decide) (by decide) (by decide) (by decide) (by decide)
      (by decide)⟩

/-- C4 as stated fails: with three stored messages the offset
`99999999999999999999`, which is at least the count, makes `getAllEmails`
reject and the route answer status 500. -/
theorem getAllEmails_offset_out_of_range :
    queryOffset (some "99999999999999999999") = JsNumber.fin 100000000000000000000
      ∧ (getEmailCount abcStore : Int) ≤ 100000000000000000000
      ∧ getAllEmails abcStore (some (JsNumber.fin 2))
            (some (JsNumber.fin 100000000000000000000))
          = .error "SQLITE_MISMATCH: datatype mismatch"
      ∧ getApiEmails abcStore (some "2") (some "99999999999999999999")
          = .error "Failed to fetch emails" :=
  ⟨by decide, by decide, rfl, rfl⟩

theorem toDouble_zero : toDouble 0 = JsNumber.fin 0 := by
  decide

theorem lt_toDouble (x t : Int) (hx : 0 ≤ x) (ht : t < 9007199254740992) :
    (toDouble x).lt (JsNumber.fin t) = decide (x < t) := by
  by_cases hx0 : x = 0
  · subst hx0
    rw [toDouble_zero]
    rfl
  · by_cases hs : x < 9007199254740992
    · rw [toDouble_exact x (by omega) hs]
      rfl
    · rcases toDouble_pos x (by omega) with hinf | ⟨m, hm, _, _, hbig⟩
      · rw [hinf]
        simp only [JsNumber.lt]
        symm
        rw [decide_eq_false_iff_not]
        omega
      · rw [hm]
        have := hbig (by omega)
        simp only [JsNumber.lt]
        rw [decide_eq_decide]
        omega

/-- C5 (as amended): whenever `GET /api/emails` answers with a pagination
object, its total is the number of stored messages and `hasMore` is the
comparison `offset + limit < total` of the numbers echoed. When the limit and
offset computed are non-negative integers that SQLite takes, the answer is
sent and the page is the part of the full listing that starts at position
offset and has at most limit entries; with fewer than `2 ^ 53` stored
messages `hasMore` is then true exactly when some stored message lies after
the returned page. -/
theorem getApiEmails_page (db : Store) (qLimit qOffset : Option String) (l o : Int) :
    (∀ body, getApiEmails db qLimit qOffset = .ok body →
        body.pagination.total = getEmailCount db
          ∧ body.pagination.total = (listing db).length
          ∧ body.pagination.hasMore
              = (body.pagination.offset.add body.pagination.limit).lt
                  (JsNumber.fin (body.pagination.total : Int)))
      ∧ (queryLimit qLimit = JsNumber.fin l → queryOffset qOffset = JsNumber.fin o →
          0 ≤ l → l < 9223372036854775808 → 0 ≤ o → o < 9223372036854775808 →
            ∃ body, getApiEmails db qLimit qOffset = .ok body
              ∧ body.emails = ((listing db).drop o.toNat).take l.toNat
              ∧ (body.emails.length : Int) ≤ l
              ∧ body.pagination.limit = JsNumber.fin l
              ∧ body.pagination.offset = JsNumber.fin o
              ∧ (getEmailCount db < 9007199254740992 →
                  body.pagination.hasMore = decide (o + l < (getEmailCount db : Int))
                    ∧ (body.pagination.hasMore = true
                        ↔ (listing db).drop (o.toNat + l.toNat) ≠ []))) := by
  refine ⟨?_, ?_⟩
  · intro body hb
    obtain ⟨h1, h2, h3, h4, _⟩ := getApiEmails_ok db qLimit qOffset body hb
    refine ⟨h3, by rw [h3, listing_length], ?_⟩
    rw [h4, h1, h2, h3]
  · intro hl ho hl0 hl2 ho0 ho2
    refine ⟨_, getApiEmails_of_integers db qLimit qOffset l o hl ho (by omega) hl2
      (by omega) ho2, ?_, ?_, rfl, rfl, ?_⟩
    · exact limitOffset_map_of_nonneg db l o hl0
    · simp only [limitOffset_map_of_nonneg db l o hl0, List.length_take]
      omega
    · intro hcount
      have hhas : ((JsNumber.fin o).add (JsNumber.fin l)).lt
          (JsNumber.fin (getEmailCount db : Int)) = decide (o + l < (getEmailCount db : Int)) := by
        simp only [JsNumber.add]
        exact lt_toDouble (o + l) _ (by omega) (by omega)
      refine ⟨hhas, ?_⟩
      simp only [hhas]
      rw [decide_eq_true_iff, ne_eq, List.drop_eq_nil_iff, listing_length]
      omega

/-- Witness for C5 (scenario A): subjects A, B, C captured at increasing
times; limit 2 and offset 0 give the subjects C, B and `hasMore` true. -/
theorem getApiEmails_page_witness :
    queryLimit (some "2") = JsNumber.fin 2 ∧ queryOffset (some "0") = JsNumber.fin 0
      ∧ ∃ body, getApiEmails abcStore (some "2") (some "0") = .ok body
          ∧ body.emails = ((listing abcStore).drop 0).take 2
          ∧ body.emails.map (fun m => m.subject) = ["C", "B"]
          ∧ body.pagination.hasMore = true
          ∧ body.pagination.total = 3 :=
  match (getApiEmails_page abcStore (some "2") (some "0") 2 0).2 (by decide) (by decide)
      (by decide) (by decide) (by decide) (by decide) with
  | ⟨body, hb, hpage, _, _, _, hmore⟩ =>
    ⟨by decide, by decide, body, hb, hpage,
      by rw [hpage]; decide,
      by rw [(hmore (by decide)).1]; decide,
      by rw [((getApiEmails_page abcStore (some "2") (some "0") 2 0).1 body hb).1]; decide⟩

/-- C5 as stated fails for a negative limit, which the route accepts: with
three stored messages the limit `-1` returns all three (more than the limit),
and `hasMore` is true although no stored message lies after the page. -/
theorem getApiEmails_negative_limit_page :
    (getApiEmails abcStore (some "-1") none).toOption.map
        (fun b => (b.pagination.limit, b.emails.map (fun m => m.subject),
          b.pagination.total, b.pagination.hasMore))
      = some (JsNumber.fin (-1), ["C", "B", "A"], 3, true) := by
  decide
/-! ## Encoding and decoding of `headers` and `attachments` -/

mutual
theorem jsonParse_jsonStringify (v : JsVal) (h : v.isJson = true) :
    (jsonStringify v).map jsonParse = some v := by
  cases v with
  | undefined => simp [JsVal.isJson] at h
  | null => rfl
  | bool b => rfl
  | num x =>
    cases x with
    | fin n => rfl
    | nan => simp [JsVal.isJson, JsNumber.isJson] at h
    | posInf => simp [JsVal.isJson, JsNumber.isJson] at h
    | negInf => simp [JsVal.isJson, JsNumber.isJson] at h
    | negZero => simp [JsVal.isJson, JsNumber.isJson] at h
  | str s => rfl
  | arr items =>
    simp only [JsVal.isJson] at h
    simp only [jsonStringify, Option.map_some', jsonParse, jsonParseItems_jsonStringifyItems items h]
  | obj props =>
    simp only [JsVal.isJson] at h
    simp only [jsonStringify, Option.map_some', jsonParse, jsonParseProps_jsonStringifyProps props h]
  | map entries => simp [JsVal.isJson] at h
theorem jsonParseItems_jsonStringifyItems (items : List JsVal)
    (h : JsVal.allJson items = true) :
    jsonParseItems (jsonStringifyItems items) = items := by
  cases items with
  | nil => rfl
  | cons v rest =>
    simp only [JsVal.allJson, Bool.and_eq_true] at h
    have hv := jsonParse_jsonStringify v h.1
    have hrest := jsonParseItems_jsonStringifyItems rest h.2
    cases hs : jsonStringify v with
    | none => rw [hs] at hv; cases hv
    | some j =>
      rw [hs] at hv
      simp only [Option.map_some', Option.some.injEq] at hv
      simp only [jsonStringifyItems, hs, jsonParseItems, hv, hrest]
theorem jsonParseProps_jsonStringifyProps (props : List (String × JsVal))
    (h : JsVal.allJsonProps props = true) :
    jsonParseProps (jsonStringifyProps props) = props := by
  cases props with
  | nil => rfl
  | cons p rest =>
    obtain ⟨k, v⟩ := p
    simp only [JsVal.allJsonProps, Bool.and_eq_true] at h
    have hv := jsonParse_jsonStringify v h.1
    have hrest := jsonParseProps_jsonStringifyProps rest h.2
    cases hs : jsonStringify v with
    | none => rw [hs] at hv; cases hv
    | some j =>
      rw [hs] at hv
      simp only [Option.map_some', Option.some.injEq] at hv
      simp only [jsonStringifyProps, hs, jsonParseProps, hv, hrest]
end

theorem decode_headers (v : JsVal) (h : v.isJson = true) :
    jsonParse ((jsonStringify v).getD (Json.obj [])) = v := by
  have hv := jsonParse_jsonStringify v h
  cases hs : jsonStringify v with
  | none => rw [hs] at hv; cases hv
  | some j =>
    rw [hs] at hv
    simpa using hv

theorem decode_attachments (v : JsVal) (h : v.isJson = true) :
    jsonParse ((jsonStringify v).getD (Json.arr [])) = v := by
  have hv := jsonParse_jsonStringify v h
  cases hs : jsonStringify v with
  | none => rw [hs] at hv; cases hv
  | some j =>
    rw [hs] at hv
    simpa using hv

theorem find_append_new (p : Row → Bool) (rows : List Row) (x : Row)
    (h : ∀ r ∈ rows, p r = false) (hx : p x = true) :
    (rows ++ [x]).find? p = some x := by
  induction rows with
  | nil => simp [hx]
  | cons b rest ih =>
    simp only [List.cons_append, List.find?_cons, h b (List.mem_cons_self _ _)]
    exact ih (fun r hr => h r (List.mem_cons_of_mem _ hr))

theorem mem_getAllEmails (db : Store) (limit offset : Option JsNumber) (page : List Email)
    (m : Email) (hp : getAllEmails db limit offset = .ok page) (hm : m ∈ page) :
    ∃ r ∈ db.emails, m = rowToEmail r := by
  have hsub := getAllEmails_sublist db limit offset page hp
  obtain ⟨r, hr, hrm⟩ := List.mem_map.mp (hsub.subset hm)
  exact ⟨r, (orderByTimestampDesc_perm db.emails).subset hr, hrm.symm⟩

/-- What does come back unchanged: when the rowids are not used up,
`insertEmail` succeeds, and for headers and attachments built only from
`null`, booleans, integers, strings, arrays and plain objects the Message it
returns, and the Message that `getEmailById` and `getAllEmails` later return
for the same id, carry headers and attachments identical to the originals;
`undefined` headers come back as the empty object and `undefined` attachments
as the empty array. -/
theorem insertEmail_roundtrip (db : Store) (now : Nat) (e : EmailData) (lastID : Nat)
    (hn : nextRowid db = some lastID) :
    ∃ db1 saved, insertEmail db now e = .ok (db1, saved) ∧ saved.id = lastID
      ∧ (e.headers.isJson = true → saved.headers = e.headers)
      ∧ (e.attachments.isJson = true → saved.attachments = e.attachments)
      ∧ (e.headers = JsVal.undefined → saved.headers = JsVal.obj [])
      ∧ (e.attachments = JsVal.undefined → saved.attachments = JsVal.arr [])
      ∧ (∃ m, getEmailById db1 (some (lastID : Int)) = some m ∧ m.id = lastID
          ∧ m.headers = saved.headers ∧ m.attachments = saved.attachments)
      ∧ (∃ m ∈ listing db1, m.id = lastID)
      ∧ (∀ (limit offset : Option JsNumber) (page : List Email) (m : Email),
          getAllEmails db1 limit offset = .ok page → m ∈ page →
          m.id = lastID → m.headers = saved.headers ∧ m.attachments = saved.attachments) := by
  have hgt := (nextRowid_gt db lastID hn).1
  refine ⟨_, _, by rw [insertEmail_eq, hn], rfl, ?_, ?_, ?_, ?_, ?_, ?_, ?_⟩
  · intro h
    exact decode_headers e.headers h
  · intro h
    exact decode_attachments e.attachments h
  · intro h
    simp only [savedEmail, insertedRow, h]
    rfl
  · intro h
    simp only [savedEmail, insertedRow, h]
    rfl
  · refine ⟨rowToEmail (insertedRow lastID now e), ?_, rfl, rfl, rfl⟩
    unfold getEmailById
    simp only []
    rw [find_append_new]
    · rfl
    · intro r hr
      have := hgt r hr
      simp only [beq_eq_false_iff_ne, ne_eq]
      omega
    · simp [insertedRow]
  · refine ⟨rowToEmail (insertedRow lastID now e), ?_, rfl⟩
    unfold listing
    apply List.mem_map_of_mem
    apply (orderByTimestampDesc_perm _).symm.subset
    simp
  · intro limit offset page m hp hm hid
    obtain ⟨r, hr, hrm⟩ := mem_getAllEmails _ limit offset page m hp hm
    simp only [List.mem_append, List.mem_singleton] at hr
    rcases hr with hr | hr
    · have := hgt r hr
      rw [hrm] at hid
      simp only [rowToEmail] at hid
      omega
    · rw [hrm, hr]
      exact ⟨rfl, rfl⟩

/-- A plain-object headers value and an array of plain objects as
attachments come back unchanged from the first insert into a new database. -/
theorem insertEmail_roundtrip_witness :
    nextRowid newDatabase = some 1
      ∧ ∃ db1 saved, insertEmail newDatabase 0 jsonHeadersEmail = .ok (db1, saved)
          ∧ saved.headers = jsonHeadersEmail.headers
          ∧ saved.attachments = jsonHeadersEmail.attachments :=
  match insertEmail_roundtrip newDatabase 0 jsonHeadersEmail 1 rfl with
  | ⟨db1, saved, hok, _, hh, ha, _⟩ => ⟨rfl, db1, saved, hok, hh rfl, ha rfl⟩

/-- Headers that are a `Map`, whatever its entries, are stored as the JSON
text of an empty object and come back as the empty object. -/
theorem insertEmail_map_headers (db : Store) (now : Nat) (e : EmailData) (lastID : Nat)
    (entries : List (String × JsVal)) (he : e.headers = JsVal.map entries)
    (hn : nextRowid db = some lastID) :
    ∃ db1 saved, insertEmail db now e = .ok (db1, saved) ∧ saved.id = lastID
      ∧ saved.headers = JsVal.obj [] ∧ saved.headers ≠ e.headers
      ∧ (getEmailById db1 (some (lastID : Int))).map (fun m => m.headers)
          = some (JsVal.obj []) := by
  have hgt := (nextRowid_gt db lastID hn).1
  have hs : (savedEmail (insertedRow lastID now e)).headers = JsVal.obj [] := by
    simp only [savedEmail, insertedRow, he]
    rfl
  refine ⟨_, _, by rw [insertEmail_eq, hn], rfl, hs, ?_, ?_⟩
  · rw [hs, he]
    exact fun h => JsVal.noConfusion h
  · unfold getEmailById
    simp only []
    rw [find_append_new]
    · simp only [Option.map_some', rowToEmail, insertedRow, he]
      rfl
    · intro r hr
      have := hgt r hr
      simp only [beq_eq_false_iff_ne, ne_eq]
      omega
    · simp [insertedRow]

/-- C10: the code at the failing input. For the test message of
`quick-test.js` the record built in `onData` carries the headers as a `Map`
with three entries; `insertEmail` stores the JSON text of an empty object for
them, and the Message it returns, the `newEmail` event and `getEmailById`
carry the empty object: the decoded headers are not the original ones. -/
theorem insertEmail_map_headers_not_restored :
    (emailData 10 quickTestMail).headers
        = JsVal.map [("from", JsVal.str "sender@test.com"),
            ("to", JsVal.str "recipient@test.com"), ("subject", JsVal.str "Quick SMTP Test")]
      ∧ ∃ db1 saved,
          insertEmail newDatabase 0 (emailData 10 quickTestMail) = .ok (db1, saved)
            ∧ db1.emails.map (fun r => r.headers) = [some (Json.obj [])]
            ∧ saved.headers = JsVal.obj []
            ∧ saved.headers ≠ (emailData 10 quickTestMail).headers
            ∧ (onData newDatabase 10 0 (.ok quickTestMail)).events = [Event.newEmail saved]
            ∧ (getEmailById db1 (some 1)).map (fun m => m.headers) = some (JsVal.obj []) :=
  ⟨rfl, _, _, rfl, rfl, rfl, fun h => JsVal.noConfusion h, rfl, rfl⟩

/-! ## The record built in `onData` -/

theorem strOr_of_ne_empty (s d : String) (h : s ≠ "") : strOr (some s) d = s := by
  unfold strOr
  simp only [h, if_false]

theorem strOr_empty_default (x : Option String) : ∀ s, x = some s → strOr x "" = s := by
  intro s hs
  rw [hs]
  unfold strOr
  by_cases h : s = ""
  · simp [h]
  · simp [h]

/-- C9 (as amended): for every parsed mail the record built in `onData` is
defined and has from and to equal to `Unknown` when missing and to the text of
the address object when the field is one address object, subject `No Subject`
when the subject is missing or empty and the parser value otherwise, text and
html empty when missing and the parser value when present, attachments the
empty array when missing and the parser value when truthy, and headers the
parser value when present; the Message stored
by `insertEmail` for that record keeps these fields and has the empty object
as headers and the empty array as attachments when they were missing. -/
theorem emailData_fields (now : Nat) (parsed : ParsedMail) :
    (emailData now parsed).timestamp = (now : Int)
      ∧ (parsed.from_ = none → (emailData now parsed).from_ = some "Unknown")
      ∧ (∀ text, parsed.from_ = some (AddressField.object text) →
          (emailData now parsed).from_ = some text)
      ∧ (parsed.to_ = none → (emailData now parsed).to_ = some "Unknown")
      ∧ (∀ text, parsed.to_ = some (AddressField.object text) →
          (emailData now parsed).to_ = some text)
      ∧ (parsed.subject = none ∨ parsed.subject = some "" →
          (emailData now parsed).subject = "No Subject")
      ∧ (∀ s, parsed.subject = some s → s ≠ "" → (emailData now parsed).subject = s)
      ∧ (parsed.text = none → (emailData now parsed).text = "")
      ∧ (∀ s, parsed.text = some s → (emailData now parsed).text = s)
      ∧ (parsed.html = none → (emailData now parsed).html = "")
      ∧ (∀ s, parsed.html = some s → (emailData now parsed).html = s)
      ∧ (parsed.attachments = JsVal.undefined →
          (emailData now parsed).attachments = JsVal.arr [])
      ∧ (parsed.attachments.truthy = true →
          (emailData now parsed).attachments = parsed.attachments)
      ∧ (parsed.headers ≠ JsVal.undefined →
          (emailData now parsed).headers = parsed.headers)
      ∧ ∀ (db : Store) (clock lastID : Nat), nextRowid db = some lastID →
          ∃ db1 saved, insertEmail db clock (emailData now parsed) = .ok (db1, saved)
            ∧ saved.id = lastID
            ∧ saved.timestamp = toISOString (now : Int)
            ∧ saved.from_ = (emailData now parsed).from_
            ∧ saved.to_ = (emailData now parsed).to_
            ∧ saved.subject = (emailData now parsed).subject
            ∧ saved.text = (emailData now parsed).text
            ∧ saved.html = (emailData now parsed).html
            ∧ (parsed.headers = JsVal.undefined → saved.headers = JsVal.obj [])
            ∧ (parsed.attachments = JsVal.undefined → saved.attachments = JsVal.arr []) := by
  refine ⟨rfl, ?_, ?_, ?_, ?_, ?_, ?_, ?_, ?_, ?_, ?_, ?_, ?_, fun _ => rfl, ?_⟩
  · intro h; simp only [emailData, h]
  · intro a h; simp only [emailData, h, AddressField.text]
  · intro h; simp only [emailData, h]
  · intro a h; simp only [emailData, h, AddressField.text]
  · intro h
    rcases h with h | h <;> simp [emailData, h, strOr]
  · intro s h hs
    simp only [emailData, h, strOr_of_ne_empty s _ hs]
  · intro h; simp [emailData, h, strOr]
  · intro s h
    simp only [emailData]
    exact strOr_empty_default _ s h
  · intro h; simp [emailData, h, strOr]
  · intro s h
    simp only [emailData]
    exact strOr_empty_default _ s h
  · intro h; simp [emailData, h, JsVal.truthy]
  · intro h; simp [emailData, h]
  · intro db clock lastID hn
    refine ⟨_, _, by rw [insertEmail_eq, hn], rfl, rfl, rfl, rfl, rfl, rfl, rfl, ?_, ?_⟩
    · intro h
      simp only [savedEmail, insertedRow, emailData, h]
      rfl
    · intro h
      simp only [savedEmail, insertedRow, emailData, h]
      rfl

/-- Witness for C9 (scenario B): a mail without a `Subject` header is stored
with the subject `No Subject`. -/
theorem emailData_fields_witness :
    noSubjectMail.subject = none
      ∧ (emailData 10 noSubjectMail).subject = "No Subject"
      ∧ nextRowid newDatabase = some 1
      ∧ ∃ db1 saved, insertEmail newDatabase 0 (emailData 10 noSubjectMail) = .ok (db1, saved)
          ∧ saved.subject = "No Subject"
          ∧ db1.emails.map (fun r => r.subject) = ["No Subject"] :=
  have h := emailData_fields 10 noSubjectMail
  ⟨rfl, h.2.2.2.2.2.1 (Or.inl rfl), rfl, _, _, rfl, by decide, by decide⟩

/-- C9 as stated fails: a subject that is present and empty is replaced by
`No Subject`; and a `to` field that is present as an array of address objects
gives neither `Unknown` nor a text of the parser but `undefined`, stored as
`NULL`. -/
theorem emailData_empty_subject_and_array_to :
    emptySubjectMail.subject = some ""
      ∧ (emailData 10 emptySubjectMail).subject = "No Subject"
      ∧ emptySubjectMail.to_
          = some (AddressField.array ["first@test.com", "second@test.com"])
      ∧ (emailData 10 emptySubjectMail).to_ = none
      ∧ ∃ db1 saved,
          insertEmail newDatabase 0 (emailData 10 emptySubjectMail) = .ok (db1, saved)
            ∧ saved.subject = "No Subject" ∧ saved.to_ = none
            ∧ db1.emails.map (fun r => r.to_address) = [none] :=
  ⟨rfl, by decide, rfl, rfl, _, _, rfl, by decide, rfl, by decide⟩
/-! ## `DELETE /api/emails/:id` -/

theorem deleteEmailById_true_iff (db : Store) (id : Option Int) :
    (deleteEmailById db id).2 = true ↔ ∃ r ∈ db.emails, id = some (r.id : Int) := by
  cases id with
  | none => simp [deleteEmailById]
  | some i =>
    simp only [deleteEmailById, decide_eq_true_eq, gt_iff_lt, Option.some.injEq]
    rw [filter_length_lt_iff]
    constructor
    · rintro ⟨r, hr, h⟩; exact ⟨r, hr, h.symm⟩
    · rintro ⟨r, hr, h⟩; exact ⟨r, hr, h.symm⟩

theorem deleteEmailById_emails (db : Store) (id : Option Int) :
    (deleteEmailById db id).1.emails
      = db.emails.filter (fun r => decide (id ≠ some (r.id : Int))) := by
  cases id with
  | none => simp [deleteEmailById]
  | some i =>
    simp only [deleteEmailById]
    congr 1
    funext r
    by_cases h : (r.id : Int) = i
    · simp [h]
    · have h2 : ¬ i = (r.id : Int) := fun h3 => h h3.symm
      simp [h, h2]

theorem deleteEmailById_unchanged (db : Store) (id : Option Int)
    (h : (deleteEmailById db id).2 = false) : (deleteEmailById db id).1 = db := by
  have hno : ¬ ∃ r ∈ db.emails, id = some (r.id : Int) := by
    rw [← deleteEmailById_true_iff, h]
    simp
  have hem := deleteEmailById_emails db id
  have hseq := deleteEmailById_sequence db id
  have hf : db.emails.filter (fun r => decide (id ≠ some (r.id : Int))) = db.emails := by
    apply List.filter_eq_self.mpr
    intro r hr
    simp only [ne_eq, decide_eq_true_eq]
    exact fun hid => hno ⟨r, hr, hid⟩
  rw [hf] at hem
  cases hd : (deleteEmailById db id).1 with
  | mk emails seq =>
    rw [hd] at hem hseq
    simp only at hem hseq
    rw [hem, hseq]

/-- A digit string has no sign: it is a numeric string and denotes its decimal
value. -/
theorem isIntegerString_of_isDigitString (s : String) (h : isDigitString s = true) :
    isIntegerString s = true ∧ unsignedPart s = s
      ∧ integerValue s = (decimalValue s : Int) ∧ s.toList.head? ≠ some '-' := by
  cases s with
  | mk l =>
    obtain ⟨hne, hall⟩ := digits_of_isDigitString l h
    have h1 : l.head? ≠ some '-' := by
      cases l with
      | nil => simp
      | cons c t =>
        intro hc
        simp only [List.head?_cons, Option.some.injEq] at hc
        have := hall c (List.mem_cons_self _ _)
        rw [hc] at this
        exact absurd this (by decide)
    have h2 : l.head? ≠ some '+' := by
      cases l with
      | nil => simp
      | cons c t =>
        intro hc
        simp only [List.head?_cons, Option.some.injEq] at hc
        have := hall c (List.mem_cons_self _ _)
        rw [hc] at this
        exact absurd this (by decide)
    have hu := unsignedPart_other l h1 h2
    refine ⟨?_, hu, ?_, h1⟩
    · unfold isIntegerString
      rw [hu]
      exact h
    · rw [integerValue_other l h1, hu]

/-- The number `parseInt` reads from a digit string of value below `2 ^ 53`,
also when text that does not begin with a digit follows it. -/
theorem parseInt_digitString (s : String) (rest : List Char)
    (h : isDigitString s = true)
    (hrest : ∀ c, rest.head? = some c → isDecimalDigit c = false)
    (hhex : ¬ (s.toList = ['0'] ∧ (rest.head? = some 'x' ∨ rest.head? = some 'X')))
    (hsmall : decimalValue s < 2 ^ 53) :
    parseInt (s.toList ++ rest) = JsNumber.fin (decimalValue s) := by
  obtain ⟨hint, hu, hv, hhead⟩ := isIntegerString_of_isDigitString s h
  have hp := parseInt_integerString s rest hint hrest (by rw [hu]; exact hhex)
  rw [hp, hv]
  by_cases h0 : (decimalValue s : Int) = 0
  · rw [if_pos h0, if_neg hhead, h0]
  · rw [if_neg h0]
    apply toDouble_exact
    · have : (0 : Int) ≤ (decimalValue s : Int) := Int.ofNat_nonneg _
      omega
    · have : ((decimalValue s : Nat) : Int) < ((2 ^ 53 : Nat) : Int) := Int.ofNat_lt.mpr hsmall
      norm_num at this
      omega

/-- C11 (as amended): for every store and every id parameter of
`DELETE /api/emails/:id`, the id of the request is the number `parseInt` reads
from the parameter; an `emailDeleted` event is emitted exactly when a message
whose id equals that number was stored. If no such message is stored the
answer is 404, no event is emitted and the store is unchanged; otherwise the
rows of that id are removed and all others kept, exactly one event,
`emailDeleted` with that number, is emitted, and the answer is
`success: true`. The number is the decimal value of the leading digits when
the parameter is a digit string of value below `2 ^ 53`, possibly followed by
text that does not begin with a digit (and is not a `0x` prefix); a parameter
that has, after white space and an optional sign, no leading digit is read as
`NaN` and is answered with 404. -/
theorem deleteApiEmail_spec (db : Store) (id s : String) (rest : List Char) :
    ((deleteApiEmail db id).events ≠ []
        ↔ ∃ r ∈ db.emails, (parseInt id.toList).integer = some (r.id : Int))
      ∧ ((¬ ∃ r ∈ db.emails, (parseInt id.toList).integer = some (r.id : Int)) →
          (deleteApiEmail db id).response.status = 404
            ∧ (deleteApiEmail db id).response.body
                = Json.obj [("error", Json.str "Email not found")]
            ∧ (deleteApiEmail db id).events = []
            ∧ (deleteApiEmail db id).db = db)
      ∧ ((∃ r ∈ db.emails, (parseInt id.toList).integer = some (r.id : Int)) →
          (deleteApiEmail db id).response.status = 200
            ∧ (deleteApiEmail db id).response.body = Json.obj [("success", Json.bool true)]
            ∧ (deleteApiEmail db id).events = [Event.emailDeleted (parseInt id.toList)]
            ∧ (deleteApiEmail db id).db.emails
                = db.emails.filter
                    (fun r => decide ((parseInt id.toList).integer ≠ some (r.id : Int)))
            ∧ (∀ r ∈ (deleteApiEmail db id).db.emails,
                (parseInt id.toList).integer ≠ some (r.id : Int))
            ∧ ((db.emails.map Row.id).Nodup →
                getEmailCount (deleteApiEmail db id).db + 1 = getEmailCount db))
      ∧ (id.toList = s.toList ++ rest → isDigitString s = true →
          (∀ c, rest.head? = some c → isDecimalDigit c = false) →
          ¬ (s.toList = ['0'] ∧ (rest.head? = some 'x' ∨ rest.head? = some 'X')) →
          decimalValue s < 2 ^ 53 →
          parseInt id.toList = JsNumber.fin (decimalValue s)
            ∧ ((deleteApiEmail db id).events ≠ [] ↔ ∃ r ∈ db.emails, r.id = decimalValue s))
      ∧ (hasNoLeadingDigit id = true →
          parseInt id.toList = JsNumber.nan
            ∧ (deleteApiEmail db id).response.status = 404
            ∧ (deleteApiEmail db id).events = []
            ∧ (deleteApiEmail db id).db = db) := by
  have hiff := deleteEmailById_true_iff db (parseInt id.toList).integer
  have hnot : (¬ ∃ r ∈ db.emails, (parseInt id.toList).integer = some (r.id : Int)) →
      (deleteApiEmail db id).response.status = 404
        ∧ (deleteApiEmail db id).response.body
            = Json.obj [("error", Json.str "Email not found")]
        ∧ (deleteApiEmail db id).events = []
        ∧ (deleteApiEmail db id).db = db := by
    intro hno
    have hfalse : (deleteEmailById db (parseInt id.toList).integer).2 = false := by
      cases hd : (deleteEmailById db (parseInt id.toList).integer).2 with
      | false => rfl
      | true => exact absurd (hiff.mp hd) hno
    simp only [deleteApiEmail, hfalse, Bool.not_false, if_true]
    exact ⟨trivial, trivial, trivial, deleteEmailById_unchanged db _ hfalse⟩
  have hyes : (∃ r ∈ db.emails, (parseInt id.toList).integer = some (r.id : Int)) →
      (deleteApiEmail db id).response.status = 200
        ∧ (deleteApiEmail db id).response.body = Json.obj [("success", Json.bool true)]
        ∧ (deleteApiEmail db id).events = [Event.emailDeleted (parseInt id.toList)]
        ∧ (deleteApiEmail db id).db = (deleteEmailById db (parseInt id.toList).integer).1 := by
    intro hex
    have htrue := hiff.mpr hex
    simp only [deleteApiEmail, htrue, Bool.not_true, Bool.false_eq_true, if_false]
    exact ⟨trivial, trivial, trivial, trivial⟩
  have hev : (deleteApiEmail db id).events ≠ []
      ↔ ∃ r ∈ db.emails, (parseInt id.toList).integer = some (r.id : Int) := by
    constructor
    · intro hne
      by_contra hno
      exact hne (hnot hno).2.2.1
    · intro hex
      rw [(hyes hex).2.2.1]
      simp
  refine ⟨hev, hnot, ?_, ?_, ?_⟩
  · intro hex
    obtain ⟨h1, h2, h3, h4⟩ := hyes hex
    have hem := deleteEmailById_emails db (parseInt id.toList).integer
    refine ⟨h1, h2, h3, ?_, ?_, ?_⟩
    · rw [h4, hem]
    · intro r hr
      rw [h4, hem] at hr
      simpa using (List.mem_filter.mp hr).2
    · intro hn
      rw [h4]
      obtain ⟨r, hr, hp⟩ := hex
      cases hpi : (parseInt id.toList).integer with
      | none => rw [hpi] at hp; cases hp
      | some i =>
        rw [hpi] at hp
        simp only [Option.some.injEq] at hp
        simp only [deleteEmailById, getEmailCount]
        exact length_filter_of_nodup db.emails i hn ⟨r, hr, hp.symm⟩
  · intro hid hs hrest hhex hsmall
    have hp : parseInt id.toList = JsNumber.fin (decimalValue s) := by
      rw [hid]
      exact parseInt_digitString s rest hs hrest hhex hsmall
    refine ⟨hp, ?_⟩
    rw [hev, hp]
    simp only [JsNumber.integer, Option.some.injEq, Nat.cast_inj]
    constructor
    · rintro ⟨r, hr, h⟩; exact ⟨r, hr, h.symm⟩
    · rintro ⟨r, hr, h⟩; exact ⟨r, hr, h.symm⟩
  · intro hno
    have hp := parseInt_of_hasNoLeadingDigit id hno
    have hnone : ¬ ∃ r ∈ db.emails, (parseInt id.toList).integer = some (r.id : Int) := by
      rw [hp]
      rintro ⟨r, _, h⟩
      cases h
    obtain ⟨h1, _, h3, h4⟩ := hnot hnone
    exact ⟨hp, h1, h3, h4⟩

/-- Witness for C11 (scenario D): with ids 1, 2, 3 stored, the id 7 is
answered with 404, no event and an unchanged store, and the id 2 is answered
with `success: true` and the one event `emailDeleted` with 2. -/
theorem deleteApiEmail_spec_witness :
    ((deleteApiEmail abcStore "7").response.status = 404
        ∧ (deleteApiEmail abcStore "7").response.body
            = Json.obj [("error", Json.str "Email not found")]
        ∧ (deleteApiEmail abcStore "7").events = []
        ∧ (deleteApiEmail abcStore "7").db = abcStore)
      ∧ (deleteApiEmail abcStore "2").response.status = 200
      ∧ (deleteApiEmail abcStore "2").events = [Event.emailDeleted (parseInt "2".toList)]
      ∧ parseInt "2".toList = JsNumber.fin 2
      ∧ (deleteApiEmail abcStore "2").db.emails.map Row.id = [1, 3]
      ∧ getEmailCount (deleteApiEmail abcStore "2").db + 1 = getEmailCount abcStore :=
  have hyes := (deleteApiEmail_spec abcStore "2" "2" []).2.2.1 (by decide)
  ⟨(deleteApiEmail_spec abcStore "7" "7" []).2.1 (by decide), hyes.1, hyes.2.2.1,
    ((deleteApiEmail_spec abcStore "2" "2" []).2.2.2.1 rfl (by decide) (by simp) (by decide)
      (by decide)).1,
    by decide, hyes.2.2.2.2.2 (by decide)⟩

/-- C11 as stated fails: with ids 1, 2, 3 stored, the ids `2abc` and `2.9` of
a request are the id of no stored message (they are not numerals), yet each
request is answered with `success: true`, removes message 2 and emits
`emailDeleted` with 2; and the id `1e1` removes message 1, not a message 10. -/
theorem deleteApiEmail_trailing_text :
    abcStore.emails.map Row.id = [1, 2, 3]
      ∧ isDigitString "2abc" = false ∧ isDigitString "2.9" = false
      ∧ isDigitString "1e1" = false
      ∧ (deleteApiEmail abcStore "2abc").response.status = 200
      ∧ (deleteApiEmail abcStore "2abc").events = [Event.emailDeleted (JsNumber.fin 2)]
      ∧ (deleteApiEmail abcStore "2abc").db.emails.map Row.id = [1, 3]
      ∧ (deleteApiEmail abcStore "2.9").response.status = 200
      ∧ (deleteApiEmail abcStore "2.9").events = [Event.emailDeleted (JsNumber.fin 2)]
      ∧ (deleteApiEmail abcStore "2.9").db.emails.map Row.id = [1, 3]
      ∧ (deleteApiEmail abcStore "1e1").response.status = 200
      ∧ (deleteApiEmail abcStore "1e1").events = [Event.emailDeleted (JsNumber.fin 1)]
      ∧ (deleteApiEmail abcStore "1e1").db.emails.map Row.id = [2, 3] :=
  ⟨by decide, by decide, by decide, by decide, by decide, rfl, by decide, by decide, rfl,
    by decide, by decide, rfl, by decide⟩
/-! ## `onData` -/

/-- C12: for every SMTP data transaction handled by `onData`: when the parser
reports an error, `callback` receives that error, the store (and so its count)
is unchanged and no event is emitted; when parsing succeeds and `insertEmail`
fails, `callback` receives the storage error, nothing is stored and no event
is emitted; when `insertEmail` succeeds, exactly one event is emitted,
`newEmail` with the saved message, whose id is the one assigned and under
which the message is stored, and `callback` is called without error; and a
`newEmail` event is emitted exactly when `insertEmail` succeeded. -/
theorem onData_spec (db : Store) (now clock : Nat) (parseResult : Except String ParsedMail) :
    (∀ err, parseResult = .error err →
        (onData db now clock parseResult).callback = some err
          ∧ (onData db now clock parseResult).db = db
          ∧ getEmailCount (onData db now clock parseResult).db = getEmailCount db
          ∧ (onData db now clock parseResult).events = [])
      ∧ (∀ parsed dbError, parseResult = .ok parsed →
          insertEmail db clock (emailData now parsed) = .error dbError →
            (onData db now clock parseResult).callback = some dbError
              ∧ (onData db now clock parseResult).db = db
              ∧ (onData db now clock parseResult).events = [])
      ∧ (∀ parsed db1 saved, parseResult = .ok parsed →
          insertEmail db clock (emailData now parsed) = .ok (db1, saved) →
            (onData db now clock parseResult).callback = none
              ∧ (onData db now clock parseResult).db = db1
              ∧ (onData db now clock parseResult).events = [Event.newEmail saved]
              ∧ nextRowid db = some saved.id
              ∧ getEmailCount db1 = getEmailCount db + 1
              ∧ ∃ m, getEmailById db1 (some (saved.id : Int)) = some m ∧ m.id = saved.id
                  ∧ m.subject = saved.subject)
      ∧ ((∃ m, Event.newEmail m ∈ (onData db now clock parseResult).events)
          ↔ ∃ parsed db1 saved, parseResult = .ok parsed
              ∧ insertEmail db clock (emailData now parsed) = .ok (db1, saved))
      ∧ (∀ parsed, parseResult = .ok parsed →
          ((∃ db1 saved, insertEmail db clock (emailData now parsed) = .ok (db1, saved))
            ↔ nextRowid db ≠ none)) := by
  refine ⟨?_, ?_, ?_, ?_, ?_⟩
  · intro err h
    subst h
    exact ⟨rfl, rfl, rfl, rfl⟩
  · intro parsed dbError h hins
    subst h
    simp only [onData, hins]
    exact ⟨trivial, trivial, trivial⟩
  · intro parsed db1 saved h hins
    subst h
    refine ⟨by simp only [onData, hins], by simp only [onData, hins],
      by simp only [onData, hins], ?_⟩
    rw [insertEmail_eq] at hins
    cases hn : nextRowid db with
    | none => rw [hn] at hins; cases hins
    | some lastID =>
      rw [hn] at hins
      simp only [Except.ok.injEq, Prod.mk.injEq] at hins
      obtain ⟨hdb, hsaved⟩ := hins
      have hgt := (nextRowid_gt db lastID hn).1
      subst hdb
      subst hsaved
      refine ⟨rfl, ?_, rowToEmail (insertedRow lastID clock (emailData now parsed)), ?_,
        rfl, rfl⟩
      · simp [getEmailCount]
      · show getEmailById _ (some (lastID : Int)) = _
        unfold getEmailById
        simp only []
        rw [find_append_new]
        · rfl
        · intro r hr
          have := hgt r hr
          simp only [beq_eq_false_iff_ne, ne_eq]
          omega
        · simp [insertedRow]
  · cases parseResult with
    | error err =>
      simp [onData]
    | ok parsed =>
      cases hins : insertEmail db clock (emailData now parsed) with
      | error dbError => simp [onData, hins]
      | ok res =>
        obtain ⟨db1, saved⟩ := res
        simp [onData, hins]
  · intro parsed _
    rw [insertEmail_eq]
    cases hn : nextRowid db with
    | none => simp
    | some lastID => simp

/-- Witness for C12: a parser error, a failing insert into a database whose
rowids are used up, and a successful insert into a new database. -/
theorem onData_spec_witness :
    ((onData abcStore 10 0 (.error "parse error")).callback = some "parse error"
        ∧ (onData abcStore 10 0 (.error "parse error")).db = abcStore
        ∧ getEmailCount (onData abcStore 10 0 (.error "parse error")).db
            = getEmailCount abcStore
        ∧ (onData abcStore 10 0 (.error "parse error")).events = [])
      ∧ ((onData fullStore 10 0 (.ok noSubjectMail)).callback = some "SQLITE_FULL"
        ∧ (onData fullStore 10 0 (.ok noSubjectMail)).db = fullStore
        ∧ (onData fullStore 10 0 (.ok noSubjectMail)).events = [])
      ∧ ∃ db1 saved,
          insertEmail newDatabase 0 (emailData 10 noSubjectMail) = .ok (db1, saved)
            ∧ saved.id = 1
            ∧ (onData newDatabase 10 0 (.ok noSubjectMail)).callback = none
            ∧ (onData newDatabase 10 0 (.ok noSubjectMail)).events = [Event.newEmail saved] :=
  ⟨(onData_spec abcStore 10 0 (.error "parse error")).1 "parse error" rfl,
    (onData_spec fullStore 10 0 (.ok noSubjectMail)).2.1 noSubjectMail "SQLITE_FULL" rfl rfl,
    _, _, rfl, rfl,
    ((onData_spec newDatabase 10 0 (.ok noSubjectMail)).2.2.1 noSubjectMail _ _ rfl rfl).1,
    ((onData_spec newDatabase 10 0 (.ok noSubjectMail)).2.2.1 noSubjectMail _ _ rfl rfl).2.2.1⟩

end SandboxSmtp
